import Mathlib

/-!
# coroutine-lib: IOManager and TimerManager

A shallow embedding of `fiber_lib/5iomanager/ioscheduler.cpp` and
`fiber_lib/5iomanager/timer.cpp`, and the properties proved about it.

Conventions of the embedding
* objects reached through pointers (schedulers, fibers, callbacks, timers) are
  named by natural numbers; a null pointer or an empty `std::function` is `none`;
* a call that would abort the process (a failed `assert`) or leave defined
  behaviour (index outside the vector, null dereference) yields a `Fault`;
* the kernel is an oracle: the value returned by `epoll_ctl` is an argument of
  the operation that makes the call, and the calls made are appended to a trace;
* locks are not modelled: every operation below runs under the locks it takes
  in the source, so it is one atomic step on the state.
-/

namespace sylar

/-! ## Data model (ioscheduler.h) -/

/-- Enumerators of `IOManager::Event`. -/
inductive Event where
  | NONE
  | READ
  | WRITE
deriving DecidableEq, Repr

/-- Numeric value of an enumerator: `NONE = 0x0`, `READ = 0x1`, `WRITE = 0x4`. -/
def Event.toNat : Event → Nat
  | .NONE => 0x0
  | .READ => 0x1
  | .WRITE => 0x4

/-- Linux `EPOLLIN`. -/
def EPOLLIN : Nat := 0x001
/-- Linux `EPOLLOUT`. -/
def EPOLLOUT : Nat := 0x004
/-- Linux `EPOLLERR`. -/
def EPOLLERR : Nat := 0x008
/-- Linux `EPOLLHUP`. -/
def EPOLLHUP : Nat := 0x010
/-- Linux `EPOLLET` (`1u << 31`). -/
def EPOLLET : Nat := 0x80000000

/-- The C expression `a & ~b` on non-negative values: `a` with the bits of `b`
cleared, computed as `a ^ (a & b)` since the naturals have no complement. -/
def andNot (a b : Nat) : Nat := a ^^^ (a &&& b)

/-- Conversion of a `size_t` to `int` (two's complement, 32 bits). -/
def castInt (n : Nat) : Int :=
  if n % 2 ^ 32 < 2 ^ 31 then ((n % 2 ^ 32 : Nat) : Int) else ((n % 2 ^ 32 : Nat) : Int) - 2 ^ 32

/-- Conversion of an `int` to `bool`: every non-zero value is `true`. -/
def boolOfInt (i : Int) : Bool := i != 0

/-- Pre-increment of a `size_t` counter. -/
def incr (n : Nat) : Nat := (n + 1) % 2 ^ 64

/-- Pre-decrement of a `size_t` counter. -/
def decr (n : Nat) : Nat := (n + (2 ^ 64 - 1)) % 2 ^ 64

/-- Why an operation did not return. -/
inductive Fault where
  | assertion
  | outOfRange
  | nullPointer
deriving DecidableEq, Repr

deriving instance DecidableEq for Except

/-- The struct `FdContext::EventContext`: scheduler, fiber and callback. -/
structure EventContext where
  scheduler : Option Nat := none
  fiber : Option Nat := none
  cb : Option Nat := none
deriving DecidableEq, Repr

/-- The struct `IOManager::FdContext` (its mutex left out). -/
structure FdContext where
  read : EventContext := {}
  write : EventContext := {}
  fd : Int := 0
  events : Nat := 0
deriving DecidableEq, Repr

/-- Modelled from the spec: `ScheduleTask` is declared in scheduler.h, which is not
among the sources. A task is either a coroutine handle or a bare callback, with an
optional thread pin, `-1` meaning any worker. -/
structure ScheduleTask where
  fiber : Option Nat := none
  cb : Option Nat := none
  thread : Int := -1
deriving DecidableEq, Repr

/-- The three operations of `epoll_ctl`. -/
inductive EpollOp where
  | ADD
  | DEL
  | MOD
deriving DecidableEq, Repr

/-- One call of `epoll_ctl(m_epfd, op, fd, &epevent)`; `events` is `epevent.events`. -/
structure EpollCall where
  op : EpollOp
  fd : Int
  events : Nat
deriving DecidableEq, Repr

/-- The thread-local values an operation reads: `Scheduler::GetThis()`,
`Fiber::GetThis()` and whether that fiber's state is `RUNNING`. -/
structure ThreadEnv where
  scheduler : Option Nat
  fiber : Nat
  fiberRunning : Bool
deriving DecidableEq, Repr

/-- State of an `IOManager` together with the two collaborators its operations
write to: the task queues of the schedulers (`tasks`, one entry per submitted task,
tagged with the scheduler it was submitted to, oldest first) and the kernel
(`epoll`, the trace of `epoll_ctl` calls, oldest first). -/
structure IOManager where
  m_pendingEventCount : Nat := 0
  m_fdContexts : List FdContext := []
  tasks : List (Nat × ScheduleTask) := []
  epoll : List EpollCall := []
deriving DecidableEq, Repr

/-! ## FdContext operations -/

/-- `FdContext::getEventContext`: the assertion, then the switch. -/
def FdContext.getEventContext (c : FdContext) : Event → Except Fault EventContext
  | .READ => .ok c.read
  | .WRITE => .ok c.write
  | .NONE => .error .assertion

/-- Assignment through the reference returned by `getEventContext`. -/
def FdContext.setEventContext (c : FdContext) (event : Event) (e : EventContext) : FdContext :=
  match event with
  | .READ => { c with read := e }
  | .WRITE => { c with write := e }
  | .NONE => c

/-- `FdContext::resetEventContext`. -/
def resetEventContext (_ : EventContext) : EventContext :=
  { scheduler := none, fiber := none, cb := none }

/-- Modelled from the spec: `Scheduler::scheduleLock` is declared in scheduler.h, which
is not among the sources. Submission puts the task at the back of the FIFO queue of
the scheduler it is called on. -/
def scheduleLock (q : List (Nat × ScheduleTask)) (scheduler : Nat) (task : ScheduleTask) :
    List (Nat × ScheduleTask) :=
  q ++ [(scheduler, task)]

/-- `FdContext::triggerEvent`, on the task queues `q` and the context `c`. -/
def FdContext.triggerEvent (q : List (Nat × ScheduleTask)) (c : FdContext) (event : Event) :
    Except Fault (List (Nat × ScheduleTask) × FdContext) :=
  if c.events &&& event.toNat = 0 then .error .assertion
  else
    let c1 := { c with events := andNot c.events event.toNat }
    match c1.getEventContext event with
    | .error f => .error f
    | .ok ctx =>
      match ctx.scheduler with
      | none => .error .nullPointer
      | some s =>
        let q1 :=
          if ctx.cb.isSome then scheduleLock q s { cb := ctx.cb }
          else scheduleLock q s { fiber := ctx.fiber }
        .ok (q1, c1.setEventContext event (resetEventContext ctx))

/-! ## IOManager operations -/

/-- `IOManager::contextResize`: `vector::resize` followed by the loop that
allocates a context with `fd = i` in every empty slot `i`. -/
def contextResize (t : List FdContext) (size : Nat) : List FdContext :=
  if size ≤ t.length then t.take size
  else t ++ (List.range' t.length (size - t.length)).map fun i => { fd := castInt i }

/-- The argument `fd * 1.5` of `contextResize` after conversion to `size_t`: the
product is exact in a double and the conversion truncates. -/
def growSize (fd : Int) : Nat := fd.toNat * 3 / 2

/-- The table as the constructor leaves it: `contextResize(32)` on the empty vector. -/
def IOManager.init : IOManager := { m_fdContexts := contextResize [] 32 }

/-- The slot `m_fdContexts[fd]`. -/
def slot (t : List FdContext) (fd : Int) : Except Fault FdContext :=
  if fd < 0 then .error .outOfRange
  else match t[fd.toNat]? with
    | some c => .ok c
    | none => .error .outOfRange

/-- The table in which `addEvent` looks up `fd`: the table as it is when
`(int)m_fdContexts.size() > fd`, and after `contextResize(fd * 1.5)` otherwise. -/
def addEventTable (t : List FdContext) (fd : Int) : List FdContext :=
  if castInt t.length > fd then t else contextResize t (growSize fd)

/-- `IOManager::addEvent`; `rt` is what `epoll_ctl` returns if it is called. -/
def addEvent (io : IOManager) (env : ThreadEnv) (rt : Int) (fd : Int) (event : Event)
    (cb : Option Nat) : Except Fault (Int × IOManager) :=
  let t := addEventTable io.m_fdContexts fd
  match slot t fd with
  | .error f => .error f
  | .ok fd_ctx =>
    let io0 := { io with m_fdContexts := t }
    if fd_ctx.events &&& event.toNat ≠ 0 then .ok (-1, io0)
    else
      let op := if fd_ctx.events ≠ 0 then EpollOp.MOD else EpollOp.ADD
      let io1 := { io0 with
        epoll := io0.epoll ++ [{ op := op, fd := fd, events := EPOLLET ||| fd_ctx.events ||| event.toNat }] }
      if rt ≠ 0 then .ok (-1, io1)
      else
        let c1 := { fd_ctx with events := fd_ctx.events ||| event.toNat }
        match c1.getEventContext event with
        | .error f => .error f
        | .ok event_ctx =>
          if event_ctx.scheduler.isSome || event_ctx.fiber.isSome || event_ctx.cb.isSome then
            .error .assertion
          else
            let e1 := { event_ctx with scheduler := env.scheduler }
            if cb.isSome then
              .ok (0, { io1 with
                m_pendingEventCount := incr io1.m_pendingEventCount
                m_fdContexts := t.set fd.toNat (c1.setEventContext event { e1 with cb := cb }) })
            else if env.fiberRunning then
              .ok (0, { io1 with
                m_pendingEventCount := incr io1.m_pendingEventCount
                m_fdContexts :=
                  t.set fd.toNat (c1.setEventContext event { e1 with fiber := some env.fiber }) })
            else .error .assertion

/-- `IOManager::delEvent`; `rt` is what `epoll_ctl` returns if it is called. -/
def delEvent (io : IOManager) (rt : Int) (fd : Int) (event : Event) :
    Except Fault (Bool × IOManager) :=
  if castInt io.m_fdContexts.length > fd then
    match slot io.m_fdContexts fd with
    | .error f => .error f
    | .ok fd_ctx =>
      if fd_ctx.events &&& event.toNat = 0 then .ok (false, io)
      else
        let new_events := andNot fd_ctx.events event.toNat
        let op := if new_events ≠ 0 then EpollOp.MOD else EpollOp.DEL
        let io1 := { io with
          epoll := io.epoll ++ [{ op := op, fd := fd, events := EPOLLET ||| new_events }] }
        if rt ≠ 0 then .ok (boolOfInt (-1), io1)
        else
          let c1 := { fd_ctx with events := new_events }
          match c1.getEventContext event with
          | .error f => .error f
          | .ok event_ctx =>
            .ok (true, { io1 with
              m_pendingEventCount := decr io1.m_pendingEventCount
              m_fdContexts :=
                io1.m_fdContexts.set fd.toNat (c1.setEventContext event (resetEventContext event_ctx)) })
  else .ok (false, io)

/-- `IOManager::cancelEvent`; `rt` is what `epoll_ctl` returns if it is called. -/
def cancelEvent (io : IOManager) (rt : Int) (fd : Int) (event : Event) :
    Except Fault (Bool × IOManager) :=
  if castInt io.m_fdContexts.length > fd then
    match slot io.m_fdContexts fd with
    | .error f => .error f
    | .ok fd_ctx =>
      if fd_ctx.events &&& event.toNat = 0 then .ok (false, io)
      else
        let new_events := andNot fd_ctx.events event.toNat
        let op := if new_events ≠ 0 then EpollOp.MOD else EpollOp.DEL
        let io1 := { io with
          epoll := io.epoll ++ [{ op := op, fd := fd, events := EPOLLET ||| new_events }] }
        if rt ≠ 0 then .ok (boolOfInt (-1), io1)
        else
          match fd_ctx.triggerEvent io1.tasks event with
          | .error f => .error f
          | .ok (q, c1) =>
            .ok (true, { io1 with
              m_pendingEventCount := decr io1.m_pendingEventCount
              tasks := q
              m_fdContexts := io1.m_fdContexts.set fd.toNat c1 })
  else .ok (false, io)

/-- The statement `if (cond) { fd_ctx->triggerEvent(event); --m_pendingEventCount; }` of
`cancelAll` and `idle`, on the counter, the task queues and the context. -/
def fireIf (cond : Bool) (event : Event) (st : Nat × List (Nat × ScheduleTask) × FdContext) :
    Except Fault (Nat × List (Nat × ScheduleTask) × FdContext) :=
  if cond then
    match st.2.2.triggerEvent st.2.1 event with
    | .error f => .error f
    | .ok (q, c) => .ok (decr st.1, q, c)
  else .ok st

/-- `IOManager::cancelAll`; `rt` is what `epoll_ctl` returns if it is called. -/
def cancelAll (io : IOManager) (rt : Int) (fd : Int) : Except Fault (Bool × IOManager) :=
  if castInt io.m_fdContexts.length > fd then
    match slot io.m_fdContexts fd with
    | .error f => .error f
    | .ok fd_ctx =>
      if fd_ctx.events = 0 then .ok (false, io)
      else
        let io1 := { io with epoll := io.epoll ++ [{ op := EpollOp.DEL, fd := fd, events := 0 }] }
        if rt ≠ 0 then .ok (boolOfInt (-1), io1)
        else
          match fireIf (decide (fd_ctx.events &&& Event.READ.toNat ≠ 0)) .READ
              (io1.m_pendingEventCount, io1.tasks, fd_ctx) with
          | .error f => .error f
          | .ok st1 =>
            match fireIf (decide (st1.2.2.events &&& Event.WRITE.toNat ≠ 0)) .WRITE st1 with
            | .error f => .error f
            | .ok st2 =>
              if st2.2.2.events ≠ 0 then .error .assertion
              else
                .ok (true, { io1 with
                  m_pendingEventCount := st2.1
                  tasks := st2.2.1
                  m_fdContexts := io1.m_fdContexts.set fd.toNat st2.2.2 })
  else .ok (false, io)

/-- The events of one turn as `idle` computes them from the reported mask `revents`
and the registered mask `events`: `EPOLLERR` and `EPOLLHUP` are first turned into the
registered directions, then `EPOLLIN` gives `READ` and `EPOLLOUT` gives `WRITE`. -/
def realEvents (events revents : Nat) : Nat :=
  let ev :=
    if revents &&& (EPOLLERR ||| EPOLLHUP) ≠ 0 then revents ||| ((EPOLLIN ||| EPOLLOUT) &&& events)
    else revents
  let r := if ev &&& EPOLLIN ≠ 0 then Event.NONE.toNat ||| Event.READ.toNat else Event.NONE.toNat
  if ev &&& EPOLLOUT ≠ 0 then r ||| Event.WRITE.toNat else r

/-- The body of the `for` loop of `IOManager::idle` for one reported event other than
the tickle pipe: `idx` is the slot that `event.data.ptr` points to, `revents` the
reported `event.events`, `rt2` what `epoll_ctl` returns if it is called. -/
def idleEvent (io : IOManager) (rt2 : Int) (idx : Nat) (revents : Nat) : Except Fault IOManager :=
  match io.m_fdContexts[idx]? with
  | none => .error .outOfRange
  | some fd_ctx =>
    let real_events := realEvents fd_ctx.events revents
    if fd_ctx.events &&& real_events = Event.NONE.toNat then .ok io
    else
      let left_events := andNot fd_ctx.events real_events
      let op := if left_events ≠ 0 then EpollOp.MOD else EpollOp.DEL
      let io1 := { io with
        epoll := io.epoll ++ [{ op := op, fd := fd_ctx.fd, events := EPOLLET ||| left_events }] }
      if rt2 ≠ 0 then .ok io1
      else
        match fireIf (decide (real_events &&& Event.READ.toNat ≠ 0)) .READ
            (io1.m_pendingEventCount, io1.tasks, fd_ctx) with
        | .error f => .error f
        | .ok st1 =>
          match fireIf (decide (real_events &&& Event.WRITE.toNat ≠ 0)) .WRITE st1 with
          | .error f => .error f
          | .ok st2 =>
            .ok { io1 with
              m_pendingEventCount := st2.1
              tasks := st2.2.1
              m_fdContexts := io1.m_fdContexts.set idx st2.2.2 }

/-! ## Timers (timer.h, timer.cpp)

Time points of `std::chrono::system_clock` are integers, counted in clock ticks;
arithmetic on them is not bounded: overflow of the signed 64-bit tick count is undefined
in the source and has no counterpart here. A `Timer` object is named by its index in
`heap` (the identity of its `shared_ptr`); `m_timers` lists the elements of the
`std::set` in iteration order. -/

/-- Clock ticks in one millisecond: the tick of `system_clock` is one nanosecond. -/
def ticksPerMs : Int := 1000000

/-- Conversion of a `uint64_t` to the signed 64-bit count of a `std::chrono` duration
(two's complement): values from `2^63` on become negative. -/
def toInt64 (n : Nat) : Int :=
  if n % 2 ^ 64 < 2 ^ 63 then ((n % 2 ^ 64 : Nat) : Int) else ((n % 2 ^ 64 : Nat) : Int) - 2 ^ 64

/-- The duration `std::chrono::milliseconds(ms)` for a `uint64_t ms`, in clock ticks. -/
def msTicks (ms : Nat) : Int := toInt64 ms * ticksPerMs

/-- The fields of class `Timer` (the back-reference to the manager left out). -/
structure Timer where
  m_recurring : Bool := false
  m_ms : Nat := 0
  m_next : Int := 0
  m_cb : Option Nat := none
deriving DecidableEq, Repr

/-- The fields of class `TimerManager` and the `Timer` objects it has created. -/
structure TimerManager where
  heap : List Timer := []
  m_timers : List Nat := []
  m_tickled : Bool := false
  m_previouseTime : Int := 0
deriving DecidableEq, Repr

/-- The field `m_next` of timer `t`. -/
def deadline (heap : List Timer) (t : Nat) : Int :=
  match heap[t]? with
  | some tmr => tmr.m_next
  | none => 0

/-- `Timer::Comparator::operator()`: `lhs->m_next < rhs->m_next`. -/
def Comparator (heap : List Timer) (lhs rhs : Nat) : Bool :=
  decide (deadline heap lhs < deadline heap rhs)

/-- `std::set::lower_bound`: position of the first element that does not compare less
than `x`, the length of the list if there is none. -/
def lowerBound (heap : List Timer) : List Nat → Nat → Nat
  | [], _ => 0
  | y :: ys, x => if Comparator heap y x then lowerBound heap ys x + 1 else 0

/-- `std::set::find`: the lower bound of `x` if `x` does not compare less than it,
`end()` (here `none`) otherwise. -/
def setFind (heap : List Timer) (s : List Nat) (x : Nat) : Option Nat :=
  match s[lowerBound heap s x]? with
  | none => none
  | some y => if Comparator heap x y then none else some (lowerBound heap s x)

/-- `std::set::insert`: `x` is put before the first element it compares less than,
unless an element equivalent to `x` (neither compares less than the other) is there
already, in which case the set is left as it is. -/
def setInsert (heap : List Timer) : List Nat → Nat → List Nat
  | [], x => [x]
  | y :: ys, x =>
    if Comparator heap x y then x :: y :: ys
    else if Comparator heap y x then y :: setInsert heap ys x
    else y :: ys

/-- `Timer::cancel` on timer `t`; `none` if there is no such object. -/
def Timer.cancel (tm : TimerManager) (t : Nat) : Option (Bool × TimerManager) :=
  match tm.heap[t]? with
  | none => none
  | some tmr =>
    if tmr.m_cb = none then some (false, tm)
    else
      let heap1 := tm.heap.set t { tmr with m_cb := none }
      match setFind heap1 tm.m_timers t with
      | some it => some (true, { tm with heap := heap1, m_timers := tm.m_timers.eraseIdx it })
      | none => some (true, { tm with heap := heap1 })

/-- `TimerManager::detectClockRollover`; `now` is the clock reading it takes. -/
def detectClockRollover (tm : TimerManager) (now : Int) : Bool × TimerManager :=
  let rollover := decide (now < tm.m_previouseTime - 60 * 60 * 1000 * ticksPerMs)
  (rollover, { tm with m_previouseTime := now })

/-- The body of the `while` loop of `listExpiredCb`: the head `temp` of the set is
erased, its callback appended to `cbs`, and the timer re-deadlined and re-inserted if
recurring, its callback cleared otherwise. -/
def expireHead (now : Int) (tm : TimerManager) (cbs : List (Option Nat)) :
    Option (TimerManager × List (Option Nat)) :=
  match tm.m_timers with
  | [] => none
  | temp :: rest =>
    match tm.heap[temp]? with
    | none => none
    | some tmr =>
      if tmr.m_recurring then
        let heap1 := tm.heap.set temp { tmr with m_next := now + msTicks tmr.m_ms }
        some ({ tm with heap := heap1, m_timers := setInsert heap1 rest temp }, cbs ++ [tmr.m_cb])
      else
        some ({ tm with heap := tm.heap.set temp { tmr with m_cb := none }, m_timers := rest },
          cbs ++ [tmr.m_cb])

/-- The condition of the `while` loop of `listExpiredCb`:
`!empty && rollover || !empty && head->m_next <= now`. -/
def expireCond (now : Int) (rollover : Bool) (tm : TimerManager) : Bool :=
  match tm.m_timers with
  | [] => false
  | temp :: _ => rollover || decide (deadline tm.heap temp ≤ now)

/-- The `while` loop of `listExpiredCb`, run for at most `fuel` iterations; `none` when
the loop has not ended by then. -/
def expireLoop (now : Int) (rollover : Bool) :
    Nat → TimerManager → List (Option Nat) → Option (TimerManager × List (Option Nat))
  | 0, _, _ => none
  | fuel + 1, tm, cbs =>
    if expireCond now rollover tm then
      match expireHead now tm cbs with
      | none => none
      | some (tm1, cbs1) => expireLoop now rollover fuel tm1 cbs1
    else some (tm, cbs)

/-- `TimerManager::listExpiredCb`: `now` is the reading taken at entry, `now2` the one
taken inside `detectClockRollover`. -/
def listExpiredCb (fuel : Nat) (now now2 : Int) (tm : TimerManager) (cbs : List (Option Nat)) :
    Option (TimerManager × List (Option Nat)) :=
  let r := detectClockRollover tm now2
  expireLoop now r.1 fuel r.2 cbs

/-- `Timer::refresh` on timer `t`; `now` is the clock reading it takes; `none` if there is
no such object. -/
def Timer.refresh (tm : TimerManager) (now : Int) (t : Nat) : Option (Bool × TimerManager) :=
  match tm.heap[t]? with
  | none => none
  | some tmr =>
    if tmr.m_cb = none then some (false, tm)
    else
      match setFind tm.heap tm.m_timers t with
      | none => some (false, tm)
      | some it =>
        let heap1 := tm.heap.set t { tmr with m_next := now + msTicks tmr.m_ms }
        some (true, { tm with heap := heap1,
                              m_timers := setInsert heap1 (tm.m_timers.eraseIdx it) t })

/-- The iterator `std::set::insert(x).first`, as a position in the set after the call:
that of `x` when it was inserted, that of the element equivalent to `x` otherwise. -/
def setInsertPos (heap : List Timer) : List Nat → Nat → Nat
  | [], _ => 0
  | y :: ys, x =>
    if Comparator heap x y then 0
    else if Comparator heap y x then setInsertPos heap ys x + 1
    else 0

/-- `TimerManager::addTimer(std::shared_ptr<Timer>)`; the second component tells whether
the hook `onTimerInsertedAtFront()` was invoked. -/
def TimerManager.addTimer (tm : TimerManager) (timer : Nat) : TimerManager × Bool :=
  let it := setInsertPos tm.heap tm.m_timers timer
  let at_front := decide (it = 0) && !tm.m_tickled
  ({ tm with m_timers := setInsert tm.heap tm.m_timers timer,
             m_tickled := if at_front then true else tm.m_tickled }, at_front)

/-- `TimerManager::addTimer(ms, cb, recurring)`: the constructor `Timer::Timer` (deadline
`now + ms` at the clock reading `now`), then `addTimer` of the new object. Returns the
handle, the state and whether the hook was invoked. -/
def TimerManager.addTimerNew (tm : TimerManager) (now : Int) (ms : Nat) (cb : Option Nat)
    (recurring : Bool) : Nat × TimerManager × Bool :=
  let timer := tm.heap.length
  let created : Timer :=
    { m_recurring := recurring, m_ms := ms, m_next := now + msTicks ms, m_cb := cb }
  let tm1 := { tm with heap := tm.heap ++ [created] }
  (timer, tm1.addTimer timer)

/-- `TimerManager::getNextTimer`; `now` is the clock reading it takes. The result is a
`uint64_t`, `~0ull` when the set is empty. -/
def TimerManager.getNextTimer (tm : TimerManager) (now : Int) : Nat × TimerManager :=
  let tm1 := { tm with m_tickled := false }
  match tm.m_timers with
  | [] => (2 ^ 64 - 1, tm1)
  | t :: _ =>
    if now ≥ deadline tm.heap t then (0, tm1)
    else (((deadline tm.heap t - now) / ticksPerMs).toNat % 2 ^ 64, tm1)

/-! ## Scheduler (scheduler.cpp): the dequeue scan of the worker loop -/

/-- Modelled from the spec: the fields `m_tasks` and `m_activeThreadCount` are declared
in scheduler.h, which is not among the sources. The task queue is a FIFO sequence and an
iterator into it is a position; `active_threads` is a counter. -/
structure Scheduler where
  m_tasks : List ScheduleTask := []
  m_activeThreadCount : Nat := 0
deriving DecidableEq, Repr

/-- The `while (it != m_tasks.end())` loop of `Scheduler::run` with the statement after
it, `tickle_me = tickle_me || (it != m_tasks.end())`. `before` holds the tasks in front
of `it`, the next argument the tasks from `it` on; after `erase(it)` the iterator stands
where the erased task was, so it differs from `end()` when a task follows. Returns the
task taken (if any), the scheduler afterwards and `tickle_me`. -/
def scanFrom (thread_id : Int) (active : Nat) (before : List ScheduleTask) :
    List ScheduleTask → Bool → Except Fault (Option ScheduleTask × Scheduler × Bool)
  | [], tickle_me =>
    .ok (none, { m_tasks := before, m_activeThreadCount := active }, tickle_me || false)
  | t :: rest, tickle_me =>
    if t.thread ≠ -1 ∧ t.thread ≠ thread_id then
      scanFrom thread_id active (before ++ [t]) rest true
    else if t.fiber.isSome || t.cb.isSome then
      .ok (some t, { m_tasks := before ++ rest, m_activeThreadCount := active + 1 },
        tickle_me || decide (rest ≠ []))
    else .error .assertion

/-- One dequeue of `Scheduler::run` by the worker `thread_id`: `it = m_tasks.begin()`,
`tickle_me = false`, then the scan. -/
def Scheduler.takeTask (sch : Scheduler) (thread_id : Int) :
    Except Fault (Option ScheduleTask × Scheduler × Bool) :=
  scanFrom thread_id sch.m_activeThreadCount [] sch.m_tasks false

/-! ## Fiber (fiber.h, fiber.cpp): the state of a coroutine

Context switches are not modelled: an operation is the assertion and the assignments
to the fields of the `Fiber` object that it makes before it swaps contexts. -/

/-- The enum `Fiber::State`. -/
inductive State where
  | READY
  | RUNNING
  | TERM
deriving DecidableEq, Repr

/-- The fields of class `Fiber` that the state machine reads and writes; `m_stack` is
`none` for a null pointer. -/
structure Fiber where
  m_state : State := .READY
  m_stack : Option Nat := none
  m_cb : Option Nat := none
  m_runInScheduler : Bool := true
deriving DecidableEq, Repr

/-- The private constructor `Fiber::Fiber()` of a main fiber: `RUNNING`, no stack. -/
def Fiber.main : Fiber := { m_state := .RUNNING, m_stack := none, m_cb := none }

/-- The constructor `Fiber::Fiber(cb, stacksize, run_in_scheduler)`: `READY`, with the
stack `stack` that `malloc` returned. -/
def Fiber.create (cb : Option Nat) (stack : Nat) (run_in_scheduler : Bool) : Fiber :=
  { m_state := .READY, m_stack := some stack, m_cb := cb, m_runInScheduler := run_in_scheduler }

/-- `Fiber::reset`. -/
def Fiber.reset (f : Fiber) (cb : Option Nat) : Except Fault Fiber :=
  if f.m_stack ≠ none ∧ f.m_state = .TERM then .ok { f with m_state := .READY, m_cb := cb }
  else .error .assertion

/-- `Fiber::resume`, up to the context switch. -/
def Fiber.resume (f : Fiber) : Except Fault Fiber :=
  if f.m_state = .READY then .ok { f with m_state := .RUNNING }
  else .error .assertion

/-- `Fiber::yield`, up to the context switch. -/
def Fiber.yield (f : Fiber) : Except Fault Fiber :=
  if f.m_state = .RUNNING ∨ f.m_state = .TERM then
    .ok (if f.m_state ≠ .TERM then { f with m_state := .READY } else f)
  else .error .assertion

/-- A call on a `Fiber` object. -/
inductive FiberOp where
  | resume
  | yield
  | reset (cb : Option Nat)
deriving DecidableEq, Repr

/-- The effect of one call. -/
def Fiber.step (f : Fiber) : FiberOp → Except Fault Fiber
  | .resume => f.resume
  | .yield => f.yield
  | .reset cb => f.reset cb

/-- The effect of a sequence of calls, first to last; a failed assertion ends it. -/
def Fiber.run (f : Fiber) : List FiberOp → Except Fault Fiber
  | [] => .ok f
  | op :: ops =>
    match f.step op with
    | .ok f1 => f1.run ops
    | .error e => .error e

/-! ## Auxiliary definitions for the statements -/

/-- Number of set bits of a mask (an `int`, 32 bits). -/
def popcount (m : Nat) : Nat := ((List.range 32).filter fun i => m.testBit i).length

/-- The sum over the table of the number of registered directions. -/
def registered (t : List FdContext) : Nat := (t.map fun c => popcount c.events).sum

/-- A fresh manager after `addEvent(3, READ, cb 7)` by scheduler 9. -/
def ioRead3 : IOManager :=
  { m_pendingEventCount := 1
    m_fdContexts := IOManager.init.m_fdContexts.set 3
      { fd := 3, events := 1, read := { scheduler := some 9, cb := some 7 } }
    tasks := []
    epoll := [{ op := .ADD, fd := 3, events := 0x80000001 }] }

/-- The state `ioRead3` after `idle` has handled `EPOLLIN` for fd 3. -/
def ioFired3 : IOManager :=
  { m_pendingEventCount := 0
    m_fdContexts := IOManager.init.m_fdContexts.set 3 { fd := 3 }
    tasks := [(9, { cb := some 7 })]
    epoll := [{ op := .ADD, fd := 3, events := 0x80000001 },
              { op := .DEL, fd := 3, events := 0x80000000 }] }

/-- A fresh manager after `addEvent(3, WRITE, cb 8)` and `addEvent(3, READ, cb 7)` by
scheduler 9, the two registrations of `main`. -/
def ioBoth3 : IOManager :=
  { m_pendingEventCount := 2
    m_fdContexts := IOManager.init.m_fdContexts.set 3
      { fd := 3, events := 5, read := { scheduler := some 9, cb := some 7 },
        write := { scheduler := some 9, cb := some 8 } }
    tasks := []
    epoll := [{ op := .ADD, fd := 3, events := 0x80000004 },
              { op := .MOD, fd := 3, events := 0x80000005 }] }

/-- The order invariant of the `std::set`: along `m_timers` the comparator holds
between every element and every later one, that is, deadlines strictly increase. -/
def SetOk (tm : TimerManager) : Prop :=
  tm.m_timers.Pairwise fun a b => deadline tm.heap a < deadline tm.heap b

/-- Two pending non-recurring timers, due at 5 ms and 7 ms. -/
def tmTwo : TimerManager :=
  { heap := [{ m_ms := 5, m_next := 5000000, m_cb := some 1 },
             { m_ms := 7, m_next := 7000000, m_cb := some 2 }]
    m_timers := [0, 1] }

/-- Two pending recurring timers of period 10 ms, due at 5 ms and 6 ms. -/
def tmTwoRecurring : TimerManager :=
  { heap := [{ m_recurring := true, m_ms := 10, m_next := 5000000, m_cb := some 1 },
             { m_recurring := true, m_ms := 10, m_next := 6000000, m_cb := some 2 }]
    m_timers := [0, 1] }

/-- The direction other than `event`. -/
def Event.other : Event → Event
  | .READ => .WRITE
  | .WRITE => .READ
  | .NONE => .NONE

/-- A registered-events mask is one of `NONE`, `READ`, `WRITE`, `READ | WRITE`. -/
def maskOk (m : Nat) : Prop := m = 0 ∨ m = 1 ∨ m = 4 ∨ m = 5

instance (m : Nat) : Decidable (maskOk m) := by unfold maskOk; infer_instance

/-- The invariant of the event counter: every mask is a set of directions,
`m_pendingEventCount` is the number of registered directions over the whole table, and
the size of the table fits an `int`. -/
def Inv (io : IOManager) : Prop :=
  (∀ c ∈ io.m_fdContexts, maskOk c.events) ∧
  io.m_pendingEventCount = registered io.m_fdContexts ∧
  io.m_fdContexts.length < 2 ^ 31

/-- A context is well formed when its mask is a set of directions, the EventContext of
every unregistered direction is empty and that of every registered direction names a
scheduler. -/
def ctxOk (c : FdContext) : Prop :=
  maskOk c.events ∧
  (c.events &&& Event.READ.toNat = 0 → c.read = {}) ∧
  (c.events &&& Event.WRITE.toNat = 0 → c.write = {}) ∧
  (c.events &&& Event.READ.toNat ≠ 0 → c.read.scheduler.isSome) ∧
  (c.events &&& Event.WRITE.toNat ≠ 0 → c.write.scheduler.isSome)

/-- Every context of the table is well formed. -/
def tableOk (io : IOManager) : Prop := ∀ c ∈ io.m_fdContexts, ctxOk c

/-- The part of well-formedness that does not depend on the thread that registered: the
mask is a set of directions and the EventContext of every unregistered direction is
empty. -/
def ctxClean (c : FdContext) : Prop :=
  maskOk c.events ∧
  (c.events &&& Event.READ.toNat = 0 → c.read = {}) ∧
  (c.events &&& Event.WRITE.toNat = 0 → c.write = {})

/-- Every context of the table has empty EventContexts for its unregistered directions. -/
def tableClean (io : IOManager) : Prop := ∀ c ∈ io.m_fdContexts, ctxClean c

/-- The task `triggerEvent` submits for an EventContext: its callback if there is one,
its fiber otherwise. -/
def firedTask (e : EventContext) : ScheduleTask :=
  if e.cb.isSome then { cb := e.cb } else { fiber := e.fiber }

/-- The context after a registration of `event` with EventContext `e`. -/
def FdContext.withEvent (c : FdContext) (event : Event) (e : EventContext) : FdContext :=
  ({ c with events := c.events ||| event.toNat } : FdContext).setEventContext event e

/-- The context after direction `event` has been removed or fired. -/
def FdContext.withoutEvent (c : FdContext) (event : Event) : FdContext :=
  ({ c with events := andNot c.events event.toNat } : FdContext).setEventContext event {}

/-- The environment used in the examples: scheduler 9, running fiber 1. -/
def env0 : ThreadEnv := { scheduler := some 9, fiber := 1, fiberRunning := true }

/-- One hour, in clock ticks. -/
def hourTicks : Int := 60 * 60 * 1000 * ticksPerMs

/-- Three pending non-recurring timers created at the reading of three hours, due 10 s,
20 s and 30 s later; the reading of three hours is the last one observed. -/
def tmThree : TimerManager :=
  { heap := [{ m_ms := 10000, m_next := 3 * hourTicks + 10000 * ticksPerMs, m_cb := some 1 },
             { m_ms := 20000, m_next := 3 * hourTicks + 20000 * ticksPerMs, m_cb := some 2 },
             { m_ms := 30000, m_next := 3 * hourTicks + 30000 * ticksPerMs, m_cb := some 3 }]
    m_timers := [0, 1, 2]
    m_previouseTime := 3 * hourTicks }

/-- One pending recurring timer of period 50 ms created at the reading of three hours,
which is the last reading observed. -/
def tmOneRecurring : TimerManager :=
  { heap := [{ m_recurring := true, m_ms := 50, m_next := 3 * hourTicks + 50 * ticksPerMs,
               m_cb := some 1 }]
    m_timers := [0]
    m_previouseTime := 3 * hourTicks }

/-- One pending recurring timer of period 0 ms, due at the reading 0. -/
def tmZeroPeriod : TimerManager :=
  { heap := [{ m_recurring := true, m_ms := 0, m_next := 0, m_cb := some 1 }]
    m_timers := [0] }

/-- A manager after `addTimer(10 ms, cb 1)` at the clock reading 0. -/
def tmOne : TimerManager :=
  { heap := [{ m_ms := 10, m_next := 10000000, m_cb := some 1 }]
    m_timers := [0]
    m_tickled := true }

/-- The state `tmOne` after `getNextTimer()` and then `addTimer(9 ms, cb 2)` at the clock
reading 1 ms: the new timer 1 has the deadline of timer 0 and is not in the set. -/
def tmTied : TimerManager :=
  { heap := [{ m_ms := 10, m_next := 10000000, m_cb := some 1 },
             { m_ms := 9, m_next := 10000000, m_cb := some 2 }]
    m_timers := [0]
    m_tickled := true }

/-- The state `tmTwoRecurring` after `listExpiredCb` at 7 ms: both timers are
re-deadlined to 17 ms and only timer 0 is back in the set. -/
def tmDropped : TimerManager :=
  { heap := [{ m_recurring := true, m_ms := 10, m_next := 17000000, m_cb := some 1 },
             { m_recurring := true, m_ms := 10, m_next := 17000000, m_cb := some 2 }]
    m_timers := [0]
    m_previouseTime := 7000000 }

/-- The size `⌈fd · 1.5⌉` that the specification states for the grown table. -/
def ceilGrow (fd : Int) : Nat := (fd.toNat * 3 + 1) / 2

/-- The state `ioBoth3` after `delEvent(3, READ)`: only `WRITE` is registered on fd 3. -/
def ioWrite3 : IOManager :=
  { m_pendingEventCount := 1
    m_fdContexts := IOManager.init.m_fdContexts.set 3
      { fd := 3, events := 4, write := { scheduler := some 9, cb := some 8 } }
    tasks := []
    epoll := [{ op := .ADD, fd := 3, events := 0x80000004 },
              { op := .MOD, fd := 3, events := 0x80000005 },
              { op := .MOD, fd := 3, events := 0x80000004 }] }

/-- A thread on which `Scheduler::GetThis()` is null: no scheduler was constructed on it
and it is not a worker; its current fiber 1 is running. -/
def envNone : ThreadEnv := { scheduler := none, fiber := 1, fiberRunning := true }

/-- A fresh manager after `addEvent(3, READ, cb 7)` on a thread without a current
scheduler: the registration is counted and its EventContext stores a null scheduler. -/
def ioNull3 : IOManager :=
  { m_pendingEventCount := 1
    m_fdContexts := IOManager.init.m_fdContexts.set 3
      { fd := 3, events := 1, read := { scheduler := none, cb := some 7 } }
    tasks := []
    epoll := [{ op := .ADD, fd := 3, events := 0x80000001 }] }

/-- Every slot `i` of the table holds a context whose `fd` field is `i`. -/
def fdIsIndex (t : List FdContext) : Prop :=
  ∀ (i : Nat) (c : FdContext), t[i]? = some c → c.fd = (i : Int)

/-! ## Bit and arithmetic lemmas -/

theorem testBit_of_and_eq_zero {a e : Nat} (h : a &&& e = 0) (i : Nat) :
    (a.testBit i && e.testBit i) = false := by
  have := congrArg (fun n => n.testBit i) h
  simpa [Nat.testBit_and] using this

theorem andNot_and_self (a e : Nat) : andNot a e &&& e = 0 := by
  unfold andNot
  apply Nat.eq_of_testBit_eq
  intro i
  simp only [Nat.testBit_and, Nat.testBit_xor, Nat.zero_testBit]
  cases a.testBit i <;> cases e.testBit i <;> rfl

theorem andNot_or_self {a e : Nat} (h : a &&& e = 0) : andNot (a ||| e) e = a := by
  unfold andNot
  apply Nat.eq_of_testBit_eq
  intro i
  have := testBit_of_and_eq_zero h i
  simp only [Nat.testBit_and, Nat.testBit_xor, Nat.testBit_or]
  revert this
  cases a.testBit i <;> cases e.testBit i <;> simp

theorem andNot_and_other {e o : Nat} (a : Nat) (h : e &&& o = 0) :
    andNot a e &&& o = a &&& o := by
  unfold andNot
  apply Nat.eq_of_testBit_eq
  intro i
  have := testBit_of_and_eq_zero h i
  simp only [Nat.testBit_and, Nat.testBit_xor]
  revert this
  cases a.testBit i <;> cases e.testBit i <;> cases o.testBit i <;> simp

theorem or_and_other {e o : Nat} (a : Nat) (h : e &&& o = 0) : (a ||| e) &&& o = a &&& o := by
  apply Nat.eq_of_testBit_eq
  intro i
  have := testBit_of_and_eq_zero h i
  simp only [Nat.testBit_and, Nat.testBit_or]
  revert this
  cases a.testBit i <;> cases e.testBit i <;> cases o.testBit i <;> simp

theorem or_and_self (a e : Nat) : (a ||| e) &&& e = e := by
  apply Nat.eq_of_testBit_eq
  intro i
  simp only [Nat.testBit_and, Nat.testBit_or]
  cases a.testBit i <;> cases e.testBit i <;> simp

theorem toNat_and_other (event : Event) : event.toNat &&& event.other.toNat = 0 := by
  cases event <;> decide

theorem incr_eq {n : Nat} (h : n + 1 < 2 ^ 64) : incr n = n + 1 := by
  unfold incr; omega

theorem decr_eq {n : Nat} (h0 : 0 < n) (h : n < 2 ^ 64) : decr n = n - 1 := by
  unfold decr; omega

theorem castInt_of_lt {n : Nat} (h : n < 2 ^ 31) : castInt n = (n : Int) := by
  unfold castInt
  have h1 : n % 2 ^ 32 = n := Nat.mod_eq_of_lt (by omega)
  rw [h1, if_pos h]

theorem slot_of_getElem? {t : List FdContext} {fd : Int} {c : FdContext} (hfd : 0 ≤ fd)
    (h : t[fd.toNat]? = some c) : slot t fd = .ok c := by
  unfold slot
  rw [if_neg (not_lt.mpr hfd), h]

theorem addEventTable_of_lt {t : List FdContext} {fd : Int} (hlen : t.length < 2 ^ 31)
    (h : fd < (t.length : Int)) : addEventTable t fd = t := by
  unfold addEventTable
  rw [castInt_of_lt hlen, if_pos h]

/-! ## addEvent -/

/-- C1: when `addEvent(fd, event, cb)` finds direction `event` (READ or WRITE) not
registered on the fd's context and `epoll_ctl` succeeds, it returns 0; the context's
mask becomes `old | event`; the other direction's bit and EventContext, and the rest of
the table, are unchanged; `m_pendingEventCount` grows by one; the direction's
EventContext holds the current scheduler and `cb`, or the current fiber when `cb` is
empty; nothing is scheduled; and the one kernel call made is MOD if the other direction
was registered and ADD otherwise, on the edge-triggered union of old and new events. -/
theorem addEvent_registers (io : IOManager) (env : ThreadEnv) (fd : Int) (event : Event)
    (cb : Option Nat) (fd_ctx : FdContext)
    (hfd : 0 ≤ fd)
    (hslot : (addEventTable io.m_fdContexts fd)[fd.toNat]? = some fd_ctx)
    (hev : event = .READ ∨ event = .WRITE)
    (hmask : maskOk fd_ctx.events)
    (hnew : fd_ctx.events &&& event.toNat = 0)
    (hclean : fd_ctx.getEventContext event = .ok {})
    (hrun : cb = none → env.fiberRunning = true)
    (hcnt : io.m_pendingEventCount + 1 < 2 ^ 64) :
    ∃ io1 c1,
      addEvent io env 0 fd event cb = .ok (0, io1) ∧
      io1.m_fdContexts = (addEventTable io.m_fdContexts fd).set fd.toNat c1 ∧
      c1.events = fd_ctx.events ||| event.toNat ∧
      c1.events &&& event.other.toNat = fd_ctx.events &&& event.other.toNat ∧
      c1.getEventContext event.other = fd_ctx.getEventContext event.other ∧
      c1.fd = fd_ctx.fd ∧
      io1.m_pendingEventCount = io.m_pendingEventCount + 1 ∧
      c1.getEventContext event = .ok
        { scheduler := env.scheduler
          fiber := if cb.isSome then none else some env.fiber
          cb := cb } ∧
      io1.tasks = io.tasks ∧
      io1.epoll = io.epoll ++
        [{ op := if fd_ctx.events &&& event.other.toNat ≠ 0 then EpollOp.MOD else EpollOp.ADD
           fd := fd
           events := EPOLLET ||| fd_ctx.events ||| event.toNat }] := by
  have hs := slot_of_getElem? hfd hslot
  have hop : (if fd_ctx.events ≠ 0 then EpollOp.MOD else EpollOp.ADD) =
      (if fd_ctx.events &&& event.other.toNat ≠ 0 then EpollOp.MOD else EpollOp.ADD) := by
    rcases hev with rfl | rfl <;> rcases hmask with h | h | h | h <;> rw [h] at hnew ⊢ <;>
      first | rfl | (exact absurd hnew (by decide))
  have hmem : (fd_ctx.events ||| event.toNat) &&& event.other.toNat =
      fd_ctx.events &&& event.other.toNat := or_and_other _ (toNat_and_other event)
  refine ⟨{ m_pendingEventCount := io.m_pendingEventCount + 1,
            m_fdContexts := (addEventTable io.m_fdContexts fd).set fd.toNat
              (({ fd_ctx with events := fd_ctx.events ||| event.toNat } : FdContext).setEventContext
                event { scheduler := env.scheduler,
                        fiber := if cb.isSome then none else some env.fiber,
                        cb := cb }),
            tasks := io.tasks,
            epoll := io.epoll ++
              [{ op := if fd_ctx.events &&& event.other.toNat ≠ 0 then EpollOp.MOD else EpollOp.ADD,
                 fd := fd,
                 events := EPOLLET ||| fd_ctx.events ||| event.toNat }] },
    ({ fd_ctx with events := fd_ctx.events ||| event.toNat } : FdContext).setEventContext
      event { scheduler := env.scheduler,
              fiber := if cb.isSome then none else some env.fiber,
              cb := cb }, ?_, rfl, ?_, ?_, ?_, ?_, rfl, ?_, rfl, rfl⟩
  · rcases hev with rfl | rfl <;> cases cb with
    | none =>
      have hr := hrun rfl
      simp only [FdContext.getEventContext, Except.ok.injEq] at hclean
      simp only [addEvent, hs, hnew, hclean, hr, incr_eq hcnt, ← hop, FdContext.getEventContext,
        FdContext.setEventContext, ne_eq, not_true_eq_false, ite_false, Option.isSome_none,
        Bool.or_self, Bool.false_eq_true, ite_true]
    | some f =>
      simp only [FdContext.getEventContext, Except.ok.injEq] at hclean
      simp only [addEvent, hs, hnew, hclean, incr_eq hcnt, ← hop, FdContext.getEventContext,
        FdContext.setEventContext, ne_eq, not_true_eq_false, ite_false, Option.isSome_none,
        Option.isSome_some, Bool.or_self, Bool.false_eq_true, ite_true]
  · rcases hev with rfl | rfl <;> rfl
  · rcases hev with rfl | rfl <;> exact hmem
  · rcases hev with rfl | rfl <;> rfl
  · rcases hev with rfl | rfl <;> rfl
  · rcases hev with rfl | rfl <;> rfl

/-- C1, instance: on the table of a fresh manager, `addEvent(3, READ, cb 7)` returns 0,
leaves one pending event and context 3 with mask `READ`. -/
theorem addEvent_registers_witness :
    ∃ io1 c1, addEvent IOManager.init env0 0 3 .READ (some 7) = .ok (0, io1) ∧
      io1.m_fdContexts[3]? = some c1 ∧ c1.events = 1 ∧ io1.m_pendingEventCount = 1 ∧
      c1.read = { scheduler := some 9, fiber := none, cb := some 7 } := by
  obtain ⟨io1, c1, h1, h2, h3, _, _, _, h7, h8, _, _⟩ :=
    addEvent_registers IOManager.init env0 3 .READ (some 7) { fd := 3 } (by decide) (by decide)
      (Or.inl rfl) (by decide) (by decide) (by decide) (by intro h; cases h) (by decide)
  refine ⟨io1, c1, h1, ?_, h3, h7, ?_⟩
  · rw [h2]; exact List.getElem?_set_self (by decide)
  · simpa [FdContext.getEventContext] using h8

/-- C3: when direction `event` is already registered on the context of `fd`,
`addEvent(fd, event, cb)` returns -1 and the state is the one before the call: masks,
EventContexts, `m_pendingEventCount`, task queues and the trace of kernel calls. -/
theorem addEvent_duplicate (io : IOManager) (env : ThreadEnv) (rt : Int) (fd : Int)
    (event : Event) (cb : Option Nat) (fd_ctx : FdContext)
    (hfd : 0 ≤ fd) (hlen : io.m_fdContexts.length < 2 ^ 31)
    (hslot : io.m_fdContexts[fd.toNat]? = some fd_ctx)
    (hreg : fd_ctx.events &&& event.toNat ≠ 0) :
    addEvent io env rt fd event cb = .ok (-1, io) := by
  have hlt : fd < (io.m_fdContexts.length : Int) := by
    have := (List.getElem?_eq_some_iff.mp hslot).1
    omega
  have ht := addEventTable_of_lt hlen hlt
  have hs := slot_of_getElem? hfd hslot
  simp only [addEvent, ht, hs, hreg, ne_eq, not_false_eq_true, ite_true]

/-- C3, instance: with `READ` registered on fd 3, a second `addEvent(3, READ, ...)`
returns -1 and changes nothing. -/
theorem addEvent_duplicate_witness :
    addEvent { IOManager.init with
        m_pendingEventCount := 1
        m_fdContexts := IOManager.init.m_fdContexts.set 3
          { fd := 3, events := 1, read := { scheduler := some 9, cb := some 7 } } }
      env0 0 3 .READ (some 8) =
    .ok (-1, { IOManager.init with
        m_pendingEventCount := 1
        m_fdContexts := IOManager.init.m_fdContexts.set 3
          { fd := 3, events := 1, read := { scheduler := some 9, cb := some 7 } } }) :=
  addEvent_duplicate _ env0 0 3 .READ (some 8)
    { fd := 3, events := 1, read := { scheduler := some 9, cb := some 7 } }
    (by decide) (by decide) (by decide) (by decide)

/-! ## delEvent and cancelEvent -/

theorem castInt_le (n : Nat) : castInt n ≤ (n : Int) := by
  unfold castInt
  have h := Nat.mod_le n (2 ^ 32)
  split <;> omega

theorem getElem?_of_castInt_gt {t : List FdContext} {fd : Int} (hfd : 0 ≤ fd)
    (h : castInt t.length > fd) : ∃ c, t[fd.toNat]? = some c := by
  have h1 := castInt_le t.length
  have h2 : fd.toNat < t.length := by omega
  exact ⟨t[fd.toNat], List.getElem?_eq_getElem h2⟩

/-- For a descriptor `fd >= 0`, in the table or beyond it: when direction `event` is not
registered on `fd` (there is no context at index `fd`, or its mask lacks the bit),
`delEvent(fd, event)` and `cancelEvent(fd, event)` return false and the state is the one
before the call: `m_pendingEventCount`, masks, EventContexts, task queues and kernel
trace. -/
theorem delEvent_cancelEvent_absent (io : IOManager) (rt : Int) (fd : Int) (event : Event)
    (hfd : 0 ≤ fd)
    (habs : ∀ c, io.m_fdContexts[fd.toNat]? = some c → c.events &&& event.toNat = 0) :
    delEvent io rt fd event = .ok (false, io) ∧ cancelEvent io rt fd event = .ok (false, io) := by
  by_cases h : castInt io.m_fdContexts.length > fd
  · obtain ⟨c, hc⟩ := getElem?_of_castInt_gt hfd h
    have hs := slot_of_getElem? hfd hc
    have h0 := habs c hc
    constructor
    · simp only [delEvent, h, hs, h0, ite_true]
    · simp only [cancelEvent, h, hs, h0, ite_true]
  · constructor
    · simp only [delEvent, h, ite_false]
    · simp only [cancelEvent, h, ite_false]

/-- Instance: on a fresh manager, deleting or cancelling `WRITE` on fd 5 (in the table,
nothing registered) returns false and changes nothing. -/
theorem delEvent_cancelEvent_absent_witness :
    delEvent IOManager.init 0 5 .WRITE = .ok (false, IOManager.init) ∧
      cancelEvent IOManager.init 0 5 .WRITE = .ok (false, IOManager.init) :=
  delEvent_cancelEvent_absent IOManager.init 0 5 .WRITE (by decide) (by
    intro c hc
    have : c = { fd := 5 } := by
      have h : IOManager.init.m_fdContexts[(5 : Int).toNat]? = some { fd := 5 } := by decide
      rw [h] at hc
      exact (Option.some.inj hc).symm
    rw [this]; decide)

/-- C4, the code on a negative descriptor. No direction is registered on a negative
`fd`, since the table has no context for it; yet whenever the size of the table fits an
`int`, the test `(int)m_fdContexts.size() > fd` of `delEvent(fd, event)` and of
`cancelEvent(fd, event)` passes and `m_fdContexts[fd]` is read at a negative index,
outside the table: neither call returns false. -/
theorem delEvent_cancelEvent_negative_fd (io : IOManager) (rt : Int) (fd : Int) (event : Event)
    (hneg : fd < 0) (hlen : io.m_fdContexts.length < 2 ^ 31) :
    castInt io.m_fdContexts.length > fd ∧
    slot io.m_fdContexts fd = .error .outOfRange ∧
    delEvent io rt fd event = .error .outOfRange ∧
    cancelEvent io rt fd event = .error .outOfRange := by
  have hlt : castInt io.m_fdContexts.length > fd := by
    rw [castInt_of_lt hlen]; omega
  have hs : slot io.m_fdContexts fd = .error .outOfRange := by
    simp only [slot, hneg, ite_true]
  refine ⟨hlt, hs, ?_, ?_⟩
  · simp only [delEvent, hlt, hs, ite_true]
  · simp only [cancelEvent, hlt, hs, ite_true]

/-- C4, instance: on a fresh manager, where nothing is registered on any descriptor,
`delEvent(-1, READ)` and `cancelEvent(-1, READ)` pass the size test, since 32 > -1, and
read `m_fdContexts[-1]`. -/
theorem delEvent_cancelEvent_negative_fd_witness :
    (-1 : Int) < 0 ∧
    (∀ c ∈ IOManager.init.m_fdContexts, c.events = 0) ∧
    castInt IOManager.init.m_fdContexts.length > -1 ∧
    slot IOManager.init.m_fdContexts (-1) = .error .outOfRange ∧
    delEvent IOManager.init 0 (-1) .READ = .error .outOfRange ∧
    cancelEvent IOManager.init 0 (-1) .READ = .error .outOfRange :=
  ⟨by decide, by decide,
    delEvent_cancelEvent_negative_fd IOManager.init 0 (-1) .READ (by decide) (by decide)⟩

theorem triggerEvent_eq (q : List (Nat × ScheduleTask)) (c : FdContext) (event : Event)
    (e : EventContext) (s : Nat) (hreg : c.events &&& event.toNat ≠ 0)
    (he : c.getEventContext event = .ok e) (hs : e.scheduler = some s) :
    c.triggerEvent q event = .ok (q ++ [(s, firedTask e)],
      ({ c with events := andNot c.events event.toNat } : FdContext).setEventContext event {}) := by
  cases event with
  | NONE => cases he
  | READ =>
    simp only [FdContext.getEventContext, Except.ok.injEq] at he
    subst he
    simp only [FdContext.triggerEvent, hreg, ite_false, FdContext.getEventContext, hs,
      scheduleLock, firedTask, resetEventContext]
    split <;> rfl
  | WRITE =>
    simp only [FdContext.getEventContext, Except.ok.injEq] at he
    subst he
    simp only [FdContext.triggerEvent, hreg, ite_false, FdContext.getEventContext, hs,
      scheduleLock, firedTask, resetEventContext]
    split <;> rfl

theorem triggerEvent_null (q : List (Nat × ScheduleTask)) (c : FdContext) (event : Event)
    (e : EventContext) (hreg : c.events &&& event.toNat ≠ 0)
    (he : c.getEventContext event = .ok e) (hs : e.scheduler = none) :
    c.triggerEvent q event = .error .nullPointer := by
  cases event with
  | NONE => cases he
  | READ =>
    simp only [FdContext.getEventContext, Except.ok.injEq] at he
    subst he
    simp only [FdContext.triggerEvent, hreg, ite_false, FdContext.getEventContext, hs]
  | WRITE =>
    simp only [FdContext.getEventContext, Except.ok.injEq] at he
    subst he
    simp only [FdContext.triggerEvent, hreg, ite_false, FdContext.getEventContext, hs]

/-- C5, as amended: with direction `event` registered on the context of `fd` and
`epoll_ctl` succeeding, `delEvent(fd, event)` returns true, clears only that bit,
decrements `m_pendingEventCount`, resets the direction's EventContext, leaves the other
direction alone and schedules nothing, whatever scheduler the registration stored.
`cancelEvent(fd, event)` from the same state depends on the stored scheduler: when it
is a scheduler `s`, the call returns true and ends in the same state as `delEvent`
except that exactly one task, the stored callback or else the stored fiber, is appended
to the queue of `s`; when it is null, `triggerEvent` calls `scheduleLock` through the
null pointer and the call does not return. -/
theorem cancelEvent_eq_delEvent_plus_fire (io : IOManager) (fd : Int) (event : Event)
    (fd_ctx : FdContext) (e : EventContext)
    (hfd : 0 ≤ fd) (hlen : io.m_fdContexts.length < 2 ^ 31)
    (hslot : io.m_fdContexts[fd.toNat]? = some fd_ctx)
    (hreg : fd_ctx.events &&& event.toNat ≠ 0)
    (he : fd_ctx.getEventContext event = .ok e)
    (hpos : 0 < io.m_pendingEventCount) (hcnt : io.m_pendingEventCount < 2 ^ 64) :
    ∃ iod c1,
      delEvent io 0 fd event = .ok (true, iod) ∧
      (∀ s, e.scheduler = some s →
        cancelEvent io 0 fd event =
          .ok (true, { iod with tasks := io.tasks ++ [(s, firedTask e)] })) ∧
      (e.scheduler = none → cancelEvent io 0 fd event = .error .nullPointer) ∧
      iod.tasks = io.tasks ∧
      iod.m_pendingEventCount + 1 = io.m_pendingEventCount ∧
      iod.m_fdContexts = io.m_fdContexts.set fd.toNat c1 ∧
      c1.events = andNot fd_ctx.events event.toNat ∧
      c1.events &&& event.toNat = 0 ∧
      c1.events &&& event.other.toNat = fd_ctx.events &&& event.other.toNat ∧
      c1.getEventContext event = .ok {} ∧
      c1.getEventContext event.other = fd_ctx.getEventContext event.other ∧
      c1.fd = fd_ctx.fd := by
  have hlt : castInt io.m_fdContexts.length > fd := by
    have := (List.getElem?_eq_some_iff.mp hslot).1
    rw [castInt_of_lt hlen]; omega
  have hsl := slot_of_getElem? hfd hslot
  have hd := decr_eq hpos hcnt
  have hne : event ≠ .NONE := by rintro rfl; cases he
  refine ⟨{ io with
      m_pendingEventCount := io.m_pendingEventCount - 1,
      m_fdContexts := io.m_fdContexts.set fd.toNat
        (({ fd_ctx with events := andNot fd_ctx.events event.toNat } : FdContext).setEventContext
          event {}),
      epoll := io.epoll ++
        [{ op := if andNot fd_ctx.events event.toNat ≠ 0 then EpollOp.MOD else EpollOp.DEL,
           fd := fd,
           events := EPOLLET ||| andNot fd_ctx.events event.toNat }] },
    ({ fd_ctx with events := andNot fd_ctx.events event.toNat } : FdContext).setEventContext
      event {}, ?_, ?_, ?_, rfl, ?_, rfl, ?_, ?_, ?_, ?_, ?_, ?_⟩
  · cases event with
    | NONE => exact absurd rfl hne
    | READ =>
      simp only [delEvent, hlt, hsl, hreg, hd, ite_true, ite_false, FdContext.getEventContext,
        resetEventContext, ne_eq, not_true_eq_false]
    | WRITE =>
      simp only [delEvent, hlt, hsl, hreg, hd, ite_true, ite_false, FdContext.getEventContext,
        resetEventContext, ne_eq, not_true_eq_false]
  · intro s hs
    have htr := triggerEvent_eq io.tasks fd_ctx event e s hreg he hs
    simp only [cancelEvent, hlt, hsl, hreg, hd, htr, ite_true, ite_false, ne_eq,
      not_true_eq_false]
  · intro hs
    have htr := triggerEvent_null io.tasks fd_ctx event e hreg he hs
    simp only [cancelEvent, hlt, hsl, hreg, htr, ite_true, ite_false, ne_eq,
      not_true_eq_false]
  · show io.m_pendingEventCount - 1 + 1 = io.m_pendingEventCount
    omega
  · cases event <;> rfl
  · cases event with
    | NONE => exact absurd rfl hne
    | READ => exact andNot_and_self _ _
    | WRITE => exact andNot_and_self _ _
  · cases event with
    | NONE => exact absurd rfl hne
    | READ => exact andNot_and_other _ (toNat_and_other .READ)
    | WRITE => exact andNot_and_other _ (toNat_and_other .WRITE)
  · cases event <;> first | rfl | exact absurd rfl hne
  · cases event <;> rfl
  · cases event <;> rfl

/-- C5, instance of the amended statement: with `READ` (callback 7, scheduler 9)
registered on fd 3, `delEvent` and `cancelEvent` both return true and `cancelEvent`
submits callback 7 to scheduler 9; with `READ` registered on fd 3 with a null scheduler,
`delEvent` returns true and `cancelEvent` returns nothing. -/
theorem cancelEvent_eq_delEvent_plus_fire_witness :
    (∃ iod, delEvent ioRead3 0 3 .READ = .ok (true, iod) ∧
      cancelEvent ioRead3 0 3 .READ = .ok (true, { iod with tasks := [(9, { cb := some 7 })] }) ∧
      iod.tasks = [] ∧ iod.m_pendingEventCount = 0) ∧
    (∃ iod, delEvent ioNull3 0 3 .READ = .ok (true, iod) ∧
      cancelEvent ioNull3 0 3 .READ = .error .nullPointer) := by
  obtain ⟨iod, c1, h1, h2, _, h3, h4, _⟩ :=
    cancelEvent_eq_delEvent_plus_fire ioRead3 3 .READ
      { fd := 3, events := 1, read := { scheduler := some 9, cb := some 7 } }
      { scheduler := some 9, cb := some 7 }
      (by decide) (by decide) (by decide) (by decide) (by decide) (by decide) (by decide)
  obtain ⟨iodn, _, n1, _, n3, _⟩ :=
    cancelEvent_eq_delEvent_plus_fire ioNull3 3 .READ
      { fd := 3, events := 1, read := { scheduler := none, cb := some 7 } }
      { scheduler := none, cb := some 7 }
      (by decide) (by decide) (by decide) (by decide) (by decide) (by decide) (by decide)
  refine ⟨⟨iod, h1, h2 9 rfl, h3, ?_⟩, iodn, n1, n3 rfl⟩
  have : iod.m_pendingEventCount + 1 = 1 := h4
  omega

/-- C5, counterexample to the statement without the condition on the scheduler:
`addEvent(3, READ, cb 7)` on a thread without a current scheduler returns 0 and stores a
null scheduler; from that state `delEvent(3, READ)` returns true and removes the
registration, while `cancelEvent(3, READ)` calls `scheduleLock` through the null pointer
and returns nothing. -/
theorem cancelEvent_null_scheduler_counterexample :
    addEvent IOManager.init envNone 0 3 .READ (some 7) = .ok (0, ioNull3) ∧
    delEvent ioNull3 0 3 .READ =
      .ok (true, { ioNull3 with
        m_pendingEventCount := 0
        m_fdContexts := IOManager.init.m_fdContexts.set 3 { fd := 3 }
        epoll := ioNull3.epoll ++ [{ op := .DEL, fd := 3, events := 0x80000000 }] }) ∧
    cancelEvent ioNull3 0 3 .READ = .error .nullPointer := by
  decide

theorem ioRead3_eq : addEvent IOManager.init env0 0 3 .READ (some 7) = .ok (0, ioRead3) := by
  decide

theorem ioBoth3_eq :
    (match addEvent IOManager.init env0 0 3 .WRITE (some 8) with
      | .ok (_, io1) => addEvent io1 env0 0 3 .READ (some 7)
      | .error f => .error f) = .ok (0, ioBoth3) := by
  decide

/-! ## idle: one reported event -/

theorem slot_ok {t : List FdContext} {fd : Int} {c : FdContext} (h : slot t fd = .ok c) :
    0 ≤ fd ∧ t[fd.toNat]? = some c := by
  unfold slot at h
  by_cases hfd : fd < 0
  · rw [if_pos hfd] at h; cases h
  · rw [if_neg hfd] at h
    cases hg : t[fd.toNat]? with
    | none => rw [hg] at h; cases h
    | some c1 =>
      rw [hg] at h
      cases h
      exact ⟨not_lt.mp hfd, rfl⟩

theorem eventContext_clean {e : EventContext}
    (h : ¬ (e.scheduler.isSome || e.fiber.isSome || e.cb.isSome) = true) : e = {} := by
  obtain ⟨s, f, c⟩ := e
  cases s <;> cases f <;> cases c <;> simp at h ⊢

/-- What a call of `addEvent` that returns 0 has done. -/
theorem addEvent_ok_zero {io : IOManager} {env : ThreadEnv} {rt : Int} {fd : Int} {event : Event}
    {cb : Option Nat} {io1 : IOManager} (h : addEvent io env rt fd event cb = .ok (0, io1)) :
    ∃ fd_ctx,
      0 ≤ fd ∧
      (addEventTable io.m_fdContexts fd)[fd.toNat]? = some fd_ctx ∧
      fd_ctx.events &&& event.toNat = 0 ∧
      (event = .READ ∨ event = .WRITE) ∧
      io1.tasks = io.tasks ∧
      io1.m_pendingEventCount = incr io.m_pendingEventCount ∧
      io1.m_fdContexts = (addEventTable io.m_fdContexts fd).set fd.toNat
        (({ fd_ctx with events := fd_ctx.events ||| event.toNat } : FdContext).setEventContext
          event { scheduler := env.scheduler
                  fiber := if cb.isSome then none else some env.fiber
                  cb := cb }) := by
  cases hs : slot (addEventTable io.m_fdContexts fd) fd with
  | error f => simp only [addEvent, hs] at h; cases h
  | ok c =>
    obtain ⟨hfd, hc⟩ := slot_ok hs
    by_cases hreg : c.events &&& event.toNat = 0
    · by_cases hrt : rt = 0
      · subst hrt
        cases event with
        | NONE =>
          simp only [addEvent, hs, hreg, ne_eq, not_true_eq_false, ite_false,
            FdContext.getEventContext] at h
          cases h
        | READ =>
          simp only [addEvent, hs, hreg, ne_eq, not_true_eq_false, ite_false,
            FdContext.getEventContext] at h
          split at h
          · cases h
          · rename_i hcl
            have hcl := eventContext_clean hcl
            rw [hcl] at h
            cases cb with
            | none =>
              simp only [Option.isSome_none, Bool.false_eq_true, ite_false] at h
              split at h
              · cases h
                exact ⟨c, hfd, hc, hreg, Or.inl rfl, rfl, rfl, rfl⟩
              · cases h
            | some f =>
              simp only [Option.isSome_some, ite_true] at h
              cases h
              exact ⟨c, hfd, hc, hreg, Or.inl rfl, rfl, rfl, rfl⟩
        | WRITE =>
          simp only [addEvent, hs, hreg, ne_eq, not_true_eq_false, ite_false,
            FdContext.getEventContext] at h
          split at h
          · cases h
          · rename_i hcl
            have hcl := eventContext_clean hcl
            rw [hcl] at h
            cases cb with
            | none =>
              simp only [Option.isSome_none, Bool.false_eq_true, ite_false] at h
              split at h
              · cases h
                exact ⟨c, hfd, hc, hreg, Or.inr rfl, rfl, rfl, rfl⟩
              · cases h
            | some f =>
              simp only [Option.isSome_some, ite_true] at h
              cases h
              exact ⟨c, hfd, hc, hreg, Or.inr rfl, rfl, rfl, rfl⟩
      · simp only [addEvent, hs, hreg, hrt, ne_eq, not_true_eq_false, not_false_eq_true, ite_false,
          ite_true] at h
        cases h
    · simp only [addEvent, hs, hreg, ne_eq, not_false_eq_true, ite_true] at h
      cases h

theorem fireIf_false (event : Event) (st : Nat × List (Nat × ScheduleTask) × FdContext) :
    fireIf false event st = .ok st := rfl

theorem fireIf_true (event : Event) (p : Nat) (q : List (Nat × ScheduleTask)) (c : FdContext)
    (e : EventContext) (s : Nat) (hreg : c.events &&& event.toNat ≠ 0)
    (he : c.getEventContext event = .ok e) (hs : e.scheduler = some s) :
    fireIf true event (p, q, c) = .ok (decr p, q ++ [(s, firedTask e)],
      ({ c with events := andNot c.events event.toNat } : FdContext).setEventContext event {}) := by
  simp only [fireIf, ite_true, triggerEvent_eq q c event e s hreg he hs]

theorem fireIf_null (event : Event) (p : Nat) (q : List (Nat × ScheduleTask)) (c : FdContext)
    (e : EventContext) (hreg : c.events &&& event.toNat ≠ 0)
    (he : c.getEventContext event = .ok e) (hs : e.scheduler = none) :
    fireIf true event (p, q, c) = .error .nullPointer := by
  simp only [fireIf, ite_true, triggerEvent_null q c event e hreg he hs]

theorem set_of_getElem? {α : Type} {l : List α} {i : Nat} {a : α} (h : l[i]? = some a) :
    l.set i a = l := by
  induction l generalizing i with
  | nil => rfl
  | cons x xs ih =>
    cases i with
    | zero =>
      simp only [List.getElem?_cons_zero, Option.some.injEq] at h
      rw [List.set_cons_zero, h]
    | succ n =>
      simp only [List.getElem?_cons_succ] at h
      rw [List.set_cons_succ, ih h]

/-- What `cancelAll(fd)` does when its kernel call succeeds and every registered
direction stores a scheduler. -/
theorem cancelAll_ok (io : IOManager) (fd : Int) (fd_ctx : FdContext) (sr sw : Nat)
    (hfd : 0 ≤ fd) (hlen : io.m_fdContexts.length < 2 ^ 31)
    (hslot : io.m_fdContexts[fd.toNat]? = some fd_ctx)
    (hmask : maskOk fd_ctx.events)
    (hcr : fd_ctx.events &&& Event.READ.toNat = 0 → fd_ctx.read = {})
    (hcw : fd_ctx.events &&& Event.WRITE.toNat = 0 → fd_ctx.write = {})
    (hsr : fd_ctx.events &&& Event.READ.toNat ≠ 0 → fd_ctx.read.scheduler = some sr)
    (hsw : fd_ctx.events &&& Event.WRITE.toNat ≠ 0 → fd_ctx.write.scheduler = some sw)
    (hpos : popcount fd_ctx.events ≤ io.m_pendingEventCount)
    (hcnt : io.m_pendingEventCount < 2 ^ 64) :
    ∃ io1,
      cancelAll io 0 fd = .ok (decide (fd_ctx.events ≠ 0), io1) ∧
      io1.m_fdContexts = io.m_fdContexts.set fd.toNat
        { read := {}, write := {}, fd := fd_ctx.fd, events := Event.NONE.toNat } ∧
      io1.tasks = io.tasks ++
        ((if fd_ctx.events &&& Event.READ.toNat ≠ 0 then [(sr, firedTask fd_ctx.read)] else []) ++
         (if fd_ctx.events &&& Event.WRITE.toNat ≠ 0 then [(sw, firedTask fd_ctx.write)] else [])) ∧
      io1.m_pendingEventCount + popcount fd_ctx.events = io.m_pendingEventCount ∧
      (fd_ctx.events = 0 → ∀ rt, cancelAll io rt fd = .ok (false, io)) := by
  have hlt : castInt io.m_fdContexts.length > fd := by
    have := (List.getElem?_eq_some_iff.mp hslot).1
    rw [castInt_of_lt hlen]; omega
  have hsl := slot_of_getElem? hfd hslot
  have hnone : fd_ctx.events = 0 → ∀ rt, cancelAll io rt fd = .ok (false, io) := by
    intro h0 rt
    simp only [cancelAll, hlt, hsl, h0, ite_true]
  refine (?_ : ∃ io1, _ ∧ _ ∧ _ ∧ _).elim fun io1 h => ⟨io1, h.1, h.2.1, h.2.2.1, h.2.2.2, hnone⟩
  clear hnone
  obtain ⟨r, w, f, ev⟩ := fd_ctx
  simp only at hmask hcr hcw hsr hsw hpos ⊢
  rcases hmask with rfl | rfl | rfl | rfl
  · have hr := hcr (by decide)
    have hw := hcw (by decide)
    subst hr; subst hw
    refine ⟨io, ?_, (set_of_getElem? hslot).symm, by simp, by simp [popcount]⟩
    simp only [cancelAll, hlt, hsl, ite_true]
    rfl
  · have hw := hcw (by decide)
    have hs := hsr (by decide)
    subst hw
    have hp1 : popcount 1 = 1 := by decide
    rw [hp1] at hpos ⊢
    have hd := decr_eq hpos hcnt
    have hf := fireIf_true .READ io.m_pendingEventCount io.tasks
      { read := r, write := {}, fd := f, events := 1 } r sr
      (show (1 : Nat) &&& Event.READ.toNat ≠ 0 by decide) rfl hs
    have d1 : decide ((1 : Nat) &&& Event.READ.toNat ≠ 0) = true := by decide
    have d2 : decide (andNot 1 Event.READ.toNat &&& Event.WRITE.toNat ≠ 0) = false := by decide
    have d3 : ¬ (andNot 1 Event.READ.toNat ≠ 0) := by decide
    refine ⟨{ io with
        epoll := io.epoll ++ [{ op := EpollOp.DEL, fd := fd, events := 0 }],
        m_pendingEventCount := io.m_pendingEventCount - 1,
        tasks := io.tasks ++ [(sr, firedTask r)],
        m_fdContexts := io.m_fdContexts.set fd.toNat
          { read := {}, write := {}, fd := f, events := 0 } }, ?_, rfl, by simp [Event.toNat],
      by show io.m_pendingEventCount - 1 + 1 = _; omega⟩
    simp only [cancelAll, hlt, hsl, ite_true, ite_false, one_ne_zero, ne_eq, not_true_eq_false,
      d1, hf, hd, FdContext.setEventContext, d2, fireIf_false, d3, not_false_eq_true]
    rfl
  · have hr := hcr (by decide)
    have hs := hsw (by decide)
    subst hr
    have hp1 : popcount 4 = 1 := by decide
    rw [hp1] at hpos ⊢
    have hd := decr_eq hpos hcnt
    have hf := fireIf_true .WRITE io.m_pendingEventCount io.tasks
      { read := {}, write := w, fd := f, events := 4 } w sw
      (show (4 : Nat) &&& Event.WRITE.toNat ≠ 0 by decide) rfl hs
    have d1 : decide ((4 : Nat) &&& Event.READ.toNat ≠ 0) = false := by decide
    have d2 : decide ((4 : Nat) &&& Event.WRITE.toNat ≠ 0) = true := by decide
    have d3 : ¬ (andNot 4 Event.WRITE.toNat ≠ 0) := by decide
    have d4 : (4 : Nat) ≠ 0 := by decide
    refine ⟨{ io with
        epoll := io.epoll ++ [{ op := EpollOp.DEL, fd := fd, events := 0 }],
        m_pendingEventCount := io.m_pendingEventCount - 1,
        tasks := io.tasks ++ [(sw, firedTask w)],
        m_fdContexts := io.m_fdContexts.set fd.toNat
          { read := {}, write := {}, fd := f, events := 0 } }, ?_, rfl, by simp [Event.toNat],
      by show io.m_pendingEventCount - 1 + 1 = _; omega⟩
    simp only [cancelAll, hlt, hsl, ite_true, ite_false, d4, ne_eq, not_true_eq_false,
      d1, hf, hd, FdContext.setEventContext, d2, fireIf_false, d3, not_false_eq_true]
    rfl
  · have hs1 := hsr (by decide)
    have hs2 := hsw (by decide)
    have hp1 : popcount 5 = 2 := by decide
    rw [hp1] at hpos ⊢
    have hd := decr_eq (show 0 < io.m_pendingEventCount by omega) hcnt
    have hd2 := decr_eq (show 0 < io.m_pendingEventCount - 1 by omega)
      (show io.m_pendingEventCount - 1 < 2 ^ 64 by omega)
    have hf := fireIf_true .READ io.m_pendingEventCount io.tasks
      { read := r, write := w, fd := f, events := 5 } r sr
      (show (5 : Nat) &&& Event.READ.toNat ≠ 0 by decide) rfl hs1
    have hf2 := fireIf_true .WRITE (io.m_pendingEventCount - 1) (io.tasks ++ [(sr, firedTask r)])
      { read := {}, write := w, fd := f, events := andNot 5 Event.READ.toNat } w sw
      (show andNot 5 Event.READ.toNat &&& Event.WRITE.toNat ≠ 0 by decide) rfl hs2
    have d1 : decide ((5 : Nat) &&& Event.READ.toNat ≠ 0) = true := by decide
    have d2 : decide (andNot 5 Event.READ.toNat &&& Event.WRITE.toNat ≠ 0) = true := by decide
    have d3 : ¬ (andNot (andNot 5 Event.READ.toNat) Event.WRITE.toNat ≠ 0) := by decide
    have d4 : (5 : Nat) ≠ 0 := by decide
    refine ⟨{ io with
        epoll := io.epoll ++ [{ op := EpollOp.DEL, fd := fd, events := 0 }],
        m_pendingEventCount := io.m_pendingEventCount - 1 - 1,
        tasks := io.tasks ++ [(sr, firedTask r)] ++ [(sw, firedTask w)],
        m_fdContexts := io.m_fdContexts.set fd.toNat
          { read := {}, write := {}, fd := f, events := 0 } }, ?_, rfl, by simp [Event.toNat],
      by show io.m_pendingEventCount - 1 - 1 + 2 = _; omega⟩
    simp only [cancelAll, hlt, hsl, ite_true, ite_false, d4, ne_eq, not_true_eq_false,
      d1, hf, hd, FdContext.setEventContext, d2, hf2, hd2, d3, not_false_eq_true]
    rfl

/-- What `cancelAll(fd)` does when its kernel call succeeds and a registered direction
stores a null scheduler. -/
theorem cancelAll_null (io : IOManager) (fd : Int) (fd_ctx : FdContext)
    (hfd : 0 ≤ fd) (hlen : io.m_fdContexts.length < 2 ^ 31)
    (hslot : io.m_fdContexts[fd.toNat]? = some fd_ctx)
    (hmask : maskOk fd_ctx.events)
    (hnull : (fd_ctx.events &&& Event.READ.toNat ≠ 0 ∧ fd_ctx.read.scheduler = none) ∨
      (fd_ctx.events &&& Event.WRITE.toNat ≠ 0 ∧ fd_ctx.write.scheduler = none)) :
    cancelAll io 0 fd = .error .nullPointer := by
  have hlt : castInt io.m_fdContexts.length > fd := by
    have := (List.getElem?_eq_some_iff.mp hslot).1
    rw [castInt_of_lt hlen]; omega
  have hsl := slot_of_getElem? hfd hslot
  obtain ⟨r, w, f, ev⟩ := fd_ctx
  simp only at hmask hnull
  rcases hmask with rfl | rfl | rfl | rfl
  · rcases hnull with ⟨h1, _⟩ | ⟨h1, _⟩ <;> exact absurd h1 (by decide)
  · have hs : r.scheduler = none := by
      rcases hnull with ⟨_, h2⟩ | ⟨h1, _⟩
      · exact h2
      · exact absurd h1 (by decide)
    have hf := fireIf_null .READ io.m_pendingEventCount io.tasks
      { read := r, write := w, fd := f, events := 1 } r
      (show (1 : Nat) &&& Event.READ.toNat ≠ 0 by decide) rfl hs
    have d1 : decide ((1 : Nat) &&& Event.READ.toNat ≠ 0) = true := by decide
    simp only [cancelAll, hlt, hsl, ite_true, ite_false, one_ne_zero, ne_eq, not_true_eq_false,
      d1, hf, not_false_eq_true]
  · have hs : w.scheduler = none := by
      rcases hnull with ⟨h1, _⟩ | ⟨_, h2⟩
      · exact absurd h1 (by decide)
      · exact h2
    have hf := fireIf_null .WRITE io.m_pendingEventCount io.tasks
      { read := r, write := w, fd := f, events := 4 } w
      (show (4 : Nat) &&& Event.WRITE.toNat ≠ 0 by decide) rfl hs
    have d1 : decide ((4 : Nat) &&& Event.READ.toNat ≠ 0) = false := by decide
    have d2 : decide ((4 : Nat) &&& Event.WRITE.toNat ≠ 0) = true := by decide
    have d4 : (4 : Nat) ≠ 0 := by decide
    simp only [cancelAll, hlt, hsl, ite_true, ite_false, d4, ne_eq, not_true_eq_false,
      d1, fireIf_false, d2, hf, not_false_eq_true]
  · have d1 : decide ((5 : Nat) &&& Event.READ.toNat ≠ 0) = true := by decide
    have d4 : (5 : Nat) ≠ 0 := by decide
    cases hrs : r.scheduler with
    | none =>
      have hf := fireIf_null .READ io.m_pendingEventCount io.tasks
        { read := r, write := w, fd := f, events := 5 } r
        (show (5 : Nat) &&& Event.READ.toNat ≠ 0 by decide) rfl hrs
      simp only [cancelAll, hlt, hsl, ite_true, ite_false, d4, ne_eq, not_true_eq_false,
        d1, hf, not_false_eq_true]
    | some sr =>
      have hs : w.scheduler = none := by
        rcases hnull with ⟨_, h2⟩ | ⟨_, h2⟩
        · rw [hrs] at h2; cases h2
        · exact h2
      have hf := fireIf_true .READ io.m_pendingEventCount io.tasks
        { read := r, write := w, fd := f, events := 5 } r sr
        (show (5 : Nat) &&& Event.READ.toNat ≠ 0 by decide) rfl hrs
      have hf2 := fireIf_null .WRITE (decr io.m_pendingEventCount)
        (io.tasks ++ [(sr, firedTask r)])
        { read := {}, write := w, fd := f, events := andNot 5 Event.READ.toNat } w
        (show andNot 5 Event.READ.toNat &&& Event.WRITE.toNat ≠ 0 by decide) rfl hs
      have d2 : decide (andNot 5 Event.READ.toNat &&& Event.WRITE.toNat ≠ 0) = true := by decide
      simp only [cancelAll, hlt, hsl, ite_true, ite_false, d4, ne_eq, not_true_eq_false,
        d1, hf, FdContext.setEventContext, d2, hf2, not_false_eq_true]

/-- What `cancelAll(fd)` does when its kernel call fails: the call is recorded and
nothing else changes. -/
theorem cancelAll_kernel_failure (io : IOManager) (rt : Int) (fd : Int) (fd_ctx : FdContext)
    (hfd : 0 ≤ fd) (hlen : io.m_fdContexts.length < 2 ^ 31)
    (hslot : io.m_fdContexts[fd.toNat]? = some fd_ctx)
    (hreg : fd_ctx.events ≠ 0) (hrt : rt ≠ 0) :
    cancelAll io rt fd = .ok (boolOfInt (-1), { io with
      epoll := io.epoll ++ [{ op := EpollOp.DEL, fd := fd, events := 0 }] }) := by
  have hlt : castInt io.m_fdContexts.length > fd := by
    have := (List.getElem?_eq_some_iff.mp hslot).1
    rw [castInt_of_lt hlen]; omega
  have hsl := slot_of_getElem? hfd hslot
  simp only [cancelAll, hlt, hsl, hreg, hrt, ite_true, ite_false, ne_eq, not_false_eq_true]

/-- C6, as amended. On a well-formed context of `fd` (its mask a set of directions, the
EventContext of every unregistered direction empty):

* when every registered direction stores a scheduler and the kernel call of
  `cancelAll(fd)` succeeds (or nothing is registered, so that no call is made), the fd
  context ends with `events == NONE` and both EventContexts reset; the stored target of
  each registered direction, READ first, is appended once to the queue of its stored
  scheduler; `m_pendingEventCount` drops by the number of registered directions; and
  the call returns true exactly when something was registered;
* with nothing registered the call returns false and changes nothing, whatever the
  kernel would answer;
* when something is registered and the kernel call fails, the context, the counter and
  the queues are left as they were;
* when a registered direction stores a null scheduler (its `addEvent` ran on a thread
  without a current scheduler) and the kernel call succeeds, `triggerEvent` calls
  `scheduleLock` through the null pointer and the call returns nothing. -/
theorem cancelAll_fires_all (io : IOManager) (fd : Int) (fd_ctx : FdContext)
    (hfd : 0 ≤ fd) (hlen : io.m_fdContexts.length < 2 ^ 31)
    (hslot : io.m_fdContexts[fd.toNat]? = some fd_ctx)
    (hmask : maskOk fd_ctx.events)
    (hcr : fd_ctx.events &&& Event.READ.toNat = 0 → fd_ctx.read = {})
    (hcw : fd_ctx.events &&& Event.WRITE.toNat = 0 → fd_ctx.write = {})
    (hpos : popcount fd_ctx.events ≤ io.m_pendingEventCount)
    (hcnt : io.m_pendingEventCount < 2 ^ 64) :
    (∀ sr sw,
      (fd_ctx.events &&& Event.READ.toNat ≠ 0 → fd_ctx.read.scheduler = some sr) →
      (fd_ctx.events &&& Event.WRITE.toNat ≠ 0 → fd_ctx.write.scheduler = some sw) →
      ∃ io1,
        cancelAll io 0 fd = .ok (decide (fd_ctx.events ≠ 0), io1) ∧
        io1.m_fdContexts = io.m_fdContexts.set fd.toNat
          { read := {}, write := {}, fd := fd_ctx.fd, events := Event.NONE.toNat } ∧
        io1.tasks = io.tasks ++
          ((if fd_ctx.events &&& Event.READ.toNat ≠ 0 then [(sr, firedTask fd_ctx.read)]
            else []) ++
           (if fd_ctx.events &&& Event.WRITE.toNat ≠ 0 then [(sw, firedTask fd_ctx.write)]
            else [])) ∧
        io1.m_pendingEventCount + popcount fd_ctx.events = io.m_pendingEventCount) ∧
    (fd_ctx.events = 0 → ∀ rt, cancelAll io rt fd = .ok (false, io)) ∧
    (fd_ctx.events ≠ 0 → ∀ rt, rt ≠ 0 →
      ∃ r io1, cancelAll io rt fd = .ok (r, io1) ∧
        io1.m_fdContexts = io.m_fdContexts ∧ io1.tasks = io.tasks ∧
        io1.m_pendingEventCount = io.m_pendingEventCount) ∧
    ((fd_ctx.events &&& Event.READ.toNat ≠ 0 ∧ fd_ctx.read.scheduler = none) ∨
      (fd_ctx.events &&& Event.WRITE.toNat ≠ 0 ∧ fd_ctx.write.scheduler = none) →
      cancelAll io 0 fd = .error .nullPointer) := by
  refine ⟨?_, ?_, ?_, ?_⟩
  · intro sr sw hsr hsw
    obtain ⟨io1, h1, h2, h3, h4, _⟩ :=
      cancelAll_ok io fd fd_ctx sr sw hfd hlen hslot hmask hcr hcw hsr hsw hpos hcnt
    exact ⟨io1, h1, h2, h3, h4⟩
  · intro h0
    have hsr : fd_ctx.events &&& Event.READ.toNat ≠ 0 → fd_ctx.read.scheduler = some 0 := by
      intro h; rw [h0] at h; exact absurd h (by decide)
    have hsw : fd_ctx.events &&& Event.WRITE.toNat ≠ 0 → fd_ctx.write.scheduler = some 0 := by
      intro h; rw [h0] at h; exact absurd h (by decide)
    obtain ⟨_, _, _, _, _, h5⟩ :=
      cancelAll_ok io fd fd_ctx 0 0 hfd hlen hslot hmask hcr hcw hsr hsw hpos hcnt
    exact h5 h0
  · intro hreg rt hrt
    exact ⟨_, _, cancelAll_kernel_failure io rt fd fd_ctx hfd hlen hslot hreg hrt, rfl, rfl, rfl⟩
  · exact cancelAll_null io fd fd_ctx hfd hlen hslot hmask

/-- C6, instance of the amended statement: with `READ` (callback 7) and `WRITE`
(callback 8) registered on fd 3 by scheduler 9, a `cancelAll(3)` whose kernel call
succeeds returns true, submits callback 7 then callback 8, each once, leaves context 3
empty and lowers the counter from 2 to 0; one whose kernel call fails leaves table,
queues and counter as they were; on a fresh manager `cancelAll(3)` returns false and
changes nothing; and with `READ` registered on fd 3 with a null scheduler, `cancelAll(3)`
returns nothing. -/
theorem cancelAll_fires_all_witness :
    (∃ io1, cancelAll ioBoth3 0 3 = .ok (true, io1) ∧
      io1.m_fdContexts[3]? = some { fd := 3 } ∧
      io1.tasks = [(9, { cb := some 7 }), (9, { cb := some 8 })] ∧
      io1.m_pendingEventCount = 0) ∧
    (∃ r io1, cancelAll ioBoth3 (-1) 3 = .ok (r, io1) ∧
      io1.m_fdContexts = ioBoth3.m_fdContexts ∧ io1.tasks = [] ∧
      io1.m_pendingEventCount = 2) ∧
    (∀ rt, cancelAll IOManager.init rt 3 = .ok (false, IOManager.init)) ∧
    cancelAll ioNull3 0 3 = .error .nullPointer := by
  obtain ⟨hok, _, hfail, _⟩ :=
    cancelAll_fires_all ioBoth3 3
      { fd := 3, events := 5, read := { scheduler := some 9, cb := some 7 },
        write := { scheduler := some 9, cb := some 8 } }
      (by decide) (by decide) (by decide) (by decide) (by decide) (by decide) (by decide)
      (by decide)
  obtain ⟨_, hnone, _, _⟩ :=
    cancelAll_fires_all IOManager.init 3 { fd := 3 }
      (by decide) (by decide) (by decide) (by decide) (by decide) (by decide) (by decide)
      (by decide)
  obtain ⟨_, _, _, hnull⟩ :=
    cancelAll_fires_all ioNull3 3
      { fd := 3, events := 1, read := { scheduler := none, cb := some 7 } }
      (by decide) (by decide) (by decide) (by decide) (by decide) (by decide) (by decide)
      (by decide)
  obtain ⟨io1, h1, h2, h3, h4⟩ := hok 9 9 (by decide) (by decide)
  refine ⟨⟨io1, h1, ?_, h3, ?_⟩, hfail (by decide) (-1) (by decide), hnone rfl,
    hnull (Or.inl ⟨by decide, rfl⟩)⟩
  · rw [h2]; decide
  · have h5 : popcount 5 = 2 := by decide
    have h6 : ioBoth3.m_pendingEventCount = 2 := rfl
    simp only [h5, h6] at h4
    omega

/-- C6, counterexample to the statement without the conditions on the kernel and on the
scheduler. First, with `READ` and `WRITE` registered on fd 3 by scheduler 9, a
`cancelAll(3)` whose `epoll_ctl` call fails leaves the mask at `READ | WRITE`, both
EventContexts in place, nothing scheduled and the counter at 2. Second, after
`addEvent(3, READ, cb 7)` on a thread without a current scheduler, which returns 0 and
stores a null scheduler, a `cancelAll(3)` whose kernel call succeeds calls
`scheduleLock` through the null pointer: it returns nothing and the context is not
cleared. -/
theorem cancelAll_counterexample :
    (∃ r, cancelAll ioBoth3 (-1) 3 =
      .ok (r, { ioBoth3 with
        epoll := ioBoth3.epoll ++ [{ op := .DEL, fd := 3, events := 0 }] })) ∧
    ioBoth3.m_fdContexts[3]? =
      some { fd := 3, events := 5, read := { scheduler := some 9, cb := some 7 },
             write := { scheduler := some 9, cb := some 8 } } ∧
    ioBoth3.tasks = [] ∧ ioBoth3.m_pendingEventCount = 2 ∧
    addEvent IOManager.init envNone 0 3 .READ (some 7) = .ok (0, ioNull3) ∧
    cancelAll ioNull3 0 3 = .error .nullPointer :=
  ⟨⟨true, by decide⟩, by decide⟩

/-! ## Kernel failure -/

/-- C7, the code at the failing input: with `READ` registered on fd 3 and `epoll_ctl`
failing, `delEvent`, `cancelEvent` and `cancelAll` leave masks, EventContexts, counter
and task queues untouched, yet each returns true: their `return -1` is converted to
`bool`. `addEvent` on the same failure returns -1. -/
theorem kernel_failure_returns_true :
    delEvent ioRead3 (-1) 3 .READ =
      .ok (true, { ioRead3 with
        epoll := ioRead3.epoll ++ [{ op := .DEL, fd := 3, events := 0x80000000 }] }) ∧
    cancelEvent ioRead3 (-1) 3 .READ =
      .ok (true, { ioRead3 with
        epoll := ioRead3.epoll ++ [{ op := .DEL, fd := 3, events := 0x80000000 }] }) ∧
    cancelAll ioRead3 (-1) 3 =
      .ok (true, { ioRead3 with
        epoll := ioRead3.epoll ++ [{ op := .DEL, fd := 3, events := 0 }] }) ∧
    addEvent ioRead3 env0 (-1) 3 .WRITE (some 8) =
      .ok (-1, { ioRead3 with
        epoll := ioRead3.epoll ++ [{ op := .MOD, fd := 3, events := 0x80000005 }] }) := by
  decide

/-- On a kernel failure every operation leaves the counter and the task queues as
they were, and the three removing operations leave the table as it was. -/
theorem kernel_failure_state (io : IOManager) (env : ThreadEnv) (rt : Int) (fd : Int)
    (event : Event) (cb : Option Nat) (hrt : rt ≠ 0) :
    (∀ r io1, addEvent io env rt fd event cb = .ok (r, io1) →
      r = -1 ∧ io1.m_pendingEventCount = io.m_pendingEventCount ∧ io1.tasks = io.tasks ∧
      io1.m_fdContexts = addEventTable io.m_fdContexts fd) ∧
    (∀ r io1, delEvent io rt fd event = .ok (r, io1) →
      io1.m_pendingEventCount = io.m_pendingEventCount ∧ io1.tasks = io.tasks ∧
      io1.m_fdContexts = io.m_fdContexts) ∧
    (∀ r io1, cancelEvent io rt fd event = .ok (r, io1) →
      io1.m_pendingEventCount = io.m_pendingEventCount ∧ io1.tasks = io.tasks ∧
      io1.m_fdContexts = io.m_fdContexts) ∧
    (∀ r io1, cancelAll io rt fd = .ok (r, io1) →
      io1.m_pendingEventCount = io.m_pendingEventCount ∧ io1.tasks = io.tasks ∧
      io1.m_fdContexts = io.m_fdContexts) := by
  refine ⟨?_, ?_, ?_, ?_⟩
  · intro r io1 h
    unfold addEvent at h
    simp only [hrt, ne_eq, not_false_eq_true, ite_true] at h
    split at h
    · cases h
    · split at h <;> cases h <;> exact ⟨rfl, rfl, rfl, rfl⟩
  · intro r io1 h
    unfold delEvent at h
    simp only [hrt, ne_eq, not_false_eq_true, ite_true] at h
    split at h
    · split at h
      · cases h
      · split at h <;> cases h <;> exact ⟨rfl, rfl, rfl⟩
    · cases h; exact ⟨rfl, rfl, rfl⟩
  · intro r io1 h
    unfold cancelEvent at h
    simp only [hrt, ne_eq, not_false_eq_true, ite_true] at h
    split at h
    · split at h
      · cases h
      · split at h <;> cases h <;> exact ⟨rfl, rfl, rfl⟩
    · cases h; exact ⟨rfl, rfl, rfl⟩
  · intro r io1 h
    unfold cancelAll at h
    simp only [hrt, ne_eq, not_false_eq_true, ite_true] at h
    split at h
    · split at h
      · cases h
      · split at h <;> cases h <;> exact ⟨rfl, rfl, rfl⟩
    · cases h; exact ⟨rfl, rfl, rfl⟩

/-! ## The invariant of m_pendingEventCount -/

theorem maskOk_or {m e : Nat} (hm : maskOk m) (h : m &&& e = 0) (he : e = 1 ∨ e = 4) :
    maskOk (m ||| e) ∧ popcount (m ||| e) = popcount m + 1 := by
  rcases he with rfl | rfl <;> rcases hm with rfl | rfl | rfl | rfl <;>
    first | exact absurd h (by decide) | exact ⟨by decide, by decide⟩

theorem maskOk_andNot {m e : Nat} (hm : maskOk m) (h : m &&& e ≠ 0) (he : e = 1 ∨ e = 4) :
    maskOk (andNot m e) ∧ popcount (andNot m e) + 1 = popcount m := by
  rcases he with rfl | rfl <;> rcases hm with rfl | rfl | rfl | rfl <;>
    first | exact absurd rfl h | exact ⟨by decide, by decide⟩

theorem popcount_le_two {m : Nat} (hm : maskOk m) : popcount m ≤ 2 := by
  rcases hm with rfl | rfl | rfl | rfl <;> decide

theorem toNat_cases {event : Event} (h : event = .READ ∨ event = .WRITE) :
    event.toNat = 1 ∨ event.toNat = 4 := by
  rcases h with rfl | rfl
  · exact Or.inl rfl
  · exact Or.inr rfl

theorem registered_cons (c : FdContext) (t : List FdContext) :
    registered (c :: t) = popcount c.events + registered t := by
  simp [registered]

theorem registered_append (a b : List FdContext) :
    registered (a ++ b) = registered a + registered b := by
  simp [registered]

theorem registered_set {t : List FdContext} {i : Nat} {a : FdContext} (b : FdContext)
    (h : t[i]? = some a) :
    registered (t.set i b) + popcount a.events = registered t + popcount b.events := by
  induction t generalizing i with
  | nil => simp at h
  | cons x xs ih =>
    cases i with
    | zero =>
      simp only [List.getElem?_cons_zero, Option.some.injEq] at h
      subst h
      simp only [List.set_cons_zero, registered_cons]
      omega
    | succ n =>
      simp only [List.getElem?_cons_succ] at h
      have := ih h
      simp only [List.set_cons_succ, registered_cons]
      omega

theorem popcount_le_registered {t : List FdContext} {i : Nat} {a : FdContext}
    (h : t[i]? = some a) : popcount a.events ≤ registered t := by
  induction t generalizing i with
  | nil => simp at h
  | cons x xs ih =>
    cases i with
    | zero =>
      simp only [List.getElem?_cons_zero, Option.some.injEq] at h
      subst h
      rw [registered_cons]; omega
    | succ n =>
      simp only [List.getElem?_cons_succ] at h
      have := ih h
      rw [registered_cons]; omega

theorem registered_le {t : List FdContext} (h : ∀ c ∈ t, maskOk c.events) :
    registered t ≤ 2 * t.length := by
  induction t with
  | nil => simp [registered]
  | cons x xs ih =>
    have h1 := popcount_le_two (h x (List.mem_cons_self _ _))
    have h2 := ih (fun c hc => h c (List.mem_cons_of_mem _ hc))
    rw [registered_cons, List.length_cons]
    omega

theorem maskOk_set {t : List FdContext} {i : Nat} {b : FdContext}
    (h : ∀ c ∈ t, maskOk c.events) (hb : maskOk b.events) :
    ∀ c ∈ t.set i b, maskOk c.events := by
  intro c hc
  rcases List.mem_or_eq_of_mem_set hc with h1 | rfl
  · exact h c h1
  · exact hb

/-- Replacing one context of the table keeps the invariant when the new mask is a set
of directions and the counter follows the change of that context's count. -/
theorem Inv_set {io : IOManager} {i : Nat} {a b : FdContext} {p : Nat}
    {q : List (Nat × ScheduleTask)} {k : List EpollCall}
    (hinv : Inv io) (ha : io.m_fdContexts[i]? = some a) (hb : maskOk b.events)
    (hp : p + popcount a.events = io.m_pendingEventCount + popcount b.events) :
    Inv { m_pendingEventCount := p, m_fdContexts := io.m_fdContexts.set i b, tasks := q,
          epoll := k } := by
  obtain ⟨h1, h2, h3⟩ := hinv
  refine ⟨maskOk_set h1 hb, ?_, by simpa using h3⟩
  have := registered_set b ha
  show p = registered (io.m_fdContexts.set i b)
  omega

theorem Inv_bounds {io : IOManager} (hinv : Inv io) {i : Nat} {a : FdContext}
    (ha : io.m_fdContexts[i]? = some a) :
    maskOk a.events ∧ popcount a.events ≤ io.m_pendingEventCount ∧
      io.m_pendingEventCount + 1 < 2 ^ 64 := by
  obtain ⟨h1, h2, h3⟩ := hinv
  have hmem : a ∈ io.m_fdContexts := List.getElem?_mem ha
  have := registered_le h1
  have := popcount_le_registered ha
  refine ⟨h1 a hmem, by omega, by omega⟩

theorem registered_fresh (l : List Nat) :
    registered (l.map fun i => ({ fd := castInt i } : FdContext)) = 0 := by
  induction l with
  | nil => rfl
  | cons x xs ih =>
    rw [List.map_cons, registered_cons, ih]
    show popcount 0 + 0 = 0
    decide

theorem contextResize_of_le {t : List FdContext} {size : Nat} (h : t.length ≤ size) :
    contextResize t size =
      t ++ (List.range' t.length (size - t.length)).map fun i => ({ fd := castInt i } : FdContext) := by
  unfold contextResize
  split
  · rename_i h1
    have : size = t.length := by omega
    subst this
    simp
  · rfl

theorem addEventTable_inv {t : List FdContext} {fd : Int} (hm : ∀ c ∈ t, maskOk c.events)
    (hlen : t.length < 2 ^ 31) (hg : growSize fd < 2 ^ 31) :
    (∀ c ∈ addEventTable t fd, maskOk c.events) ∧
      registered (addEventTable t fd) = registered t ∧ (addEventTable t fd).length < 2 ^ 31 := by
  unfold addEventTable
  split
  · exact ⟨hm, rfl, hlen⟩
  · rename_i h
    rw [castInt_of_lt hlen] at h
    have hle : t.length ≤ growSize fd := by
      unfold growSize; omega
    rw [contextResize_of_le hle]
    refine ⟨?_, ?_, ?_⟩
    · intro c hc
      rcases List.mem_append.mp hc with h1 | h1
      · exact hm c h1
      · obtain ⟨i, _, rfl⟩ := List.mem_map.mp h1
        exact Or.inl rfl
    · rw [registered_append, registered_fresh]; rfl
    · simp only [List.length_append, List.length_map, List.length_range']
      omega

/-- What a call of `addEvent` that returns has done to the table and the counter. -/
theorem addEvent_ok {io : IOManager} {env : ThreadEnv} {rt : Int} {fd : Int} {event : Event}
    {cb : Option Nat} {r : Int} {io1 : IOManager}
    (h : addEvent io env rt fd event cb = .ok (r, io1)) :
    r = 0 ∨ (io1.m_pendingEventCount = io.m_pendingEventCount ∧
      io1.m_fdContexts = addEventTable io.m_fdContexts fd) := by
  unfold addEvent at h
  simp only at h
  repeat' split at h
  all_goals first | (cases h; done) | (cases h; exact Or.inl rfl) | (cases h; exact Or.inr ⟨rfl, rfl⟩)

theorem setEventContext_events (c : FdContext) (event : Event) (e : EventContext) :
    (c.setEventContext event e).events = c.events := by
  cases event <;> rfl

theorem addEvent_preserves {io : IOManager} {env : ThreadEnv} {rt : Int} {fd : Int}
    {event : Event} {cb : Option Nat} {r : Int} {io1 : IOManager}
    (hinv : Inv io) (hg : growSize fd < 2 ^ 31)
    (h : addEvent io env rt fd event cb = .ok (r, io1)) : Inv io1 := by
  obtain ⟨hm, hreg, hlen⟩ := addEventTable_inv hinv.1 hinv.2.2 hg
  have hle := registered_le hm
  rcases addEvent_ok h with rfl | ⟨hp, ht⟩
  · obtain ⟨fd_ctx, hfd, hc, hnew, hev, _, hpend, htab⟩ := addEvent_ok_zero h
    have hmo := maskOk_or (hm fd_ctx (List.getElem?_mem hc)) hnew (toNat_cases hev)
    have hset := registered_set
      (({ fd_ctx with events := fd_ctx.events ||| event.toNat } : FdContext).setEventContext event
        { scheduler := env.scheduler, fiber := if cb.isSome then none else some env.fiber,
          cb := cb }) hc
    rw [setEventContext_events] at hset
    simp only [hmo.2] at hset
    have hio := hinv.2.1
    refine ⟨?_, ?_, ?_⟩
    · rw [htab]
      refine maskOk_set hm ?_
      rw [setEventContext_events]
      exact hmo.1
    · rw [hpend, htab, incr_eq (by omega)]
      omega
    · rw [htab, List.length_set]
      exact hlen
  · refine ⟨?_, ?_, ?_⟩
    · rw [ht]; exact hm
    · rw [hp, ht, hreg]; exact hinv.2.1
    · rw [ht]; exact hlen

/-- What a call of `delEvent` or `cancelEvent` that returns has done to the table and
the counter: nothing, or removed one registered direction. -/
theorem delEvent_ok {io : IOManager} {rt : Int} {fd : Int} {event : Event} {r : Bool}
    {io1 : IOManager} (h : delEvent io rt fd event = .ok (r, io1)) :
    (io1.m_pendingEventCount = io.m_pendingEventCount ∧ io1.m_fdContexts = io.m_fdContexts) ∨
    ∃ c e, io.m_fdContexts[fd.toNat]? = some c ∧ c.events &&& event.toNat ≠ 0 ∧
      (event = .READ ∨ event = .WRITE) ∧
      io1.m_pendingEventCount = decr io.m_pendingEventCount ∧
      io1.m_fdContexts = io.m_fdContexts.set fd.toNat
        (({ c with events := andNot c.events event.toNat } : FdContext).setEventContext event e) := by
  unfold delEvent at h
  simp only at h
  split at h
  · split at h
    · cases h
    · rename_i c hs
      obtain ⟨_, hc⟩ := slot_ok hs
      split at h
      · cases h; exact Or.inl ⟨rfl, rfl⟩
      · rename_i hreg
        split at h
        · cases h; exact Or.inl ⟨rfl, rfl⟩
        · cases event with
          | NONE => exact absurd (Nat.and_zero _) hreg
          | READ =>
            simp only [FdContext.getEventContext] at h
            cases h
            exact Or.inr ⟨c, _, hc, hreg, Or.inl rfl, rfl, rfl⟩
          | WRITE =>
            simp only [FdContext.getEventContext] at h
            cases h
            exact Or.inr ⟨c, _, hc, hreg, Or.inr rfl, rfl, rfl⟩
  · cases h; exact Or.inl ⟨rfl, rfl⟩

theorem triggerEvent_ok {q q1 : List (Nat × ScheduleTask)} {c c1 : FdContext} {event : Event}
    (h : c.triggerEvent q event = .ok (q1, c1)) :
    c.events &&& event.toNat ≠ 0 ∧ (event = .READ ∨ event = .WRITE) ∧
      c1.events = andNot c.events event.toNat := by
  unfold FdContext.triggerEvent at h
  split at h
  · cases h
  · rename_i hreg
    cases event with
    | NONE => exact absurd (Nat.and_zero _) hreg
    | READ =>
      simp only [FdContext.getEventContext] at h
      split at h
      · cases h
      · cases h; exact ⟨hreg, Or.inl rfl, rfl⟩
    | WRITE =>
      simp only [FdContext.getEventContext] at h
      split at h
      · cases h
      · cases h; exact ⟨hreg, Or.inr rfl, rfl⟩

theorem cancelEvent_ok {io : IOManager} {rt : Int} {fd : Int} {event : Event} {r : Bool}
    {io1 : IOManager} (h : cancelEvent io rt fd event = .ok (r, io1)) :
    (io1.m_pendingEventCount = io.m_pendingEventCount ∧ io1.m_fdContexts = io.m_fdContexts) ∨
    ∃ c c1, io.m_fdContexts[fd.toNat]? = some c ∧ c.events &&& event.toNat ≠ 0 ∧
      (event = .READ ∨ event = .WRITE) ∧
      io1.m_pendingEventCount = decr io.m_pendingEventCount ∧
      c1.events = andNot c.events event.toNat ∧
      io1.m_fdContexts = io.m_fdContexts.set fd.toNat c1 := by
  unfold cancelEvent at h
  simp only at h
  split at h
  · split at h
    · cases h
    · rename_i c hs
      obtain ⟨_, hc⟩ := slot_ok hs
      split at h
      · cases h; exact Or.inl ⟨rfl, rfl⟩
      · split at h
        · cases h; exact Or.inl ⟨rfl, rfl⟩
        · split at h
          · cases h
          · rename_i q c1 htr
            obtain ⟨h1, h2, h3⟩ := triggerEvent_ok htr
            cases h
            exact Or.inr ⟨c, c1, hc, h1, h2, rfl, h3, rfl⟩
  · cases h; exact Or.inl ⟨rfl, rfl⟩

/-- Removing one registered direction from a context and decrementing the counter
keeps the invariant. -/
theorem Inv_remove {io io1 : IOManager} {i : Nat} {c c1 : FdContext} {e : Nat}
    (hinv : Inv io) (hc : io.m_fdContexts[i]? = some c) (hreg : c.events &&& e ≠ 0)
    (he : e = 1 ∨ e = 4) (hc1 : c1.events = andNot c.events e)
    (hp : io1.m_pendingEventCount = decr io.m_pendingEventCount)
    (ht : io1.m_fdContexts = io.m_fdContexts.set i c1) : Inv io1 := by
  obtain ⟨hm, hle, hlt⟩ := Inv_bounds hinv hc
  have hmo := maskOk_andNot hm hreg he
  have hset := registered_set c1 hc
  rw [hc1] at hset
  have hio := hinv.2.1
  refine ⟨?_, ?_, ?_⟩
  · rw [ht]
    refine maskOk_set hinv.1 ?_
    rw [hc1]; exact hmo.1
  · rw [hp, ht, decr_eq (by omega) (by omega)]
    omega
  · rw [ht, List.length_set]
    exact hinv.2.2

theorem Inv_same {io io1 : IOManager} (hinv : Inv io)
    (h : io1.m_pendingEventCount = io.m_pendingEventCount ∧ io1.m_fdContexts = io.m_fdContexts) :
    Inv io1 := by
  unfold Inv
  rw [h.1, h.2]
  exact hinv

theorem delEvent_preserves {io : IOManager} {rt : Int} {fd : Int} {event : Event} {r : Bool}
    {io1 : IOManager} (hinv : Inv io) (h : delEvent io rt fd event = .ok (r, io1)) : Inv io1 := by
  rcases delEvent_ok h with hs | ⟨c, e, hc, hreg, hev, hp, ht⟩
  · exact Inv_same hinv hs
  · exact Inv_remove hinv hc hreg (toNat_cases hev) (setEventContext_events _ _ _) hp ht

theorem cancelEvent_preserves {io : IOManager} {rt : Int} {fd : Int} {event : Event} {r : Bool}
    {io1 : IOManager} (hinv : Inv io) (h : cancelEvent io rt fd event = .ok (r, io1)) :
    Inv io1 := by
  rcases cancelEvent_ok h with hs | ⟨c, c1, hc, hreg, hev, hp, hc1, ht⟩
  · exact Inv_same hinv hs
  · exact Inv_remove hinv hc hreg (toNat_cases hev) hc1 hp ht

/-- One `if (cond) { triggerEvent(event); --m_pendingEventCount; }` keeps the difference
`k` between the counter and the number of directions registered on the context. -/
theorem fireIf_keeps {cond : Bool} {event : Event} {p p1 : Nat}
    {q q1 : List (Nat × ScheduleTask)} {c c1 : FdContext} {k : Nat}
    (h : fireIf cond event (p, q, c) = .ok (p1, q1, c1)) (hm : maskOk c.events)
    (hp : p = k + popcount c.events) (hlt : p < 2 ^ 64) :
    maskOk c1.events ∧ p1 = k + popcount c1.events ∧ p1 < 2 ^ 64 := by
  unfold fireIf at h
  split at h
  · split at h
    · cases h
    · rename_i q2 c2 htr
      dsimp only at htr
      obtain ⟨h1, h2, h3⟩ := triggerEvent_ok htr
      simp only [Except.ok.injEq, Prod.mk.injEq] at h
      obtain ⟨rfl, rfl, rfl⟩ := h
      have hmo := maskOk_andNot hm h1 (toNat_cases h2)
      have hd := decr_eq (n := p) (by omega) hlt
      rw [h3, hd]
      exact ⟨hmo.1, by omega, by omega⟩
  · simp only [Except.ok.injEq, Prod.mk.injEq] at h
    obtain ⟨rfl, rfl, rfl⟩ := h
    exact ⟨hm, hp, hlt⟩

theorem cancelAll_preserves {io : IOManager} {rt : Int} {fd : Int} {r : Bool}
    {io1 : IOManager} (hinv : Inv io) (h : cancelAll io rt fd = .ok (r, io1)) : Inv io1 := by
  unfold cancelAll at h
  simp only at h
  split at h
  · split at h
    · cases h
    · rename_i c hs
      obtain ⟨_, hc⟩ := slot_ok hs
      obtain ⟨hm, hle, hlt⟩ := Inv_bounds hinv hc
      split at h
      · cases h; exact hinv
      · split at h
        · cases h; exact Inv_same hinv ⟨rfl, rfl⟩
        · split at h
          · cases h
          · rename_i st1 hf1
            split at h
            · cases h
            · rename_i st2 hf2
              split at h
              · cases h
              · cases h
                obtain ⟨p1, q1, c1⟩ := st1
                obtain ⟨p2, q2, c2⟩ := st2
                have k1 := fireIf_keeps (k := io.m_pendingEventCount - popcount c.events) hf1 hm
                  (by omega) (by omega)
                have k2 := fireIf_keeps hf2 k1.1 k1.2.1 k1.2.2
                exact Inv_set hinv hc k2.1 (by have := k2.2.1; simp only; omega)
  · cases h; exact hinv

theorem idleEvent_preserves {io : IOManager} {rt2 : Int} {idx revents : Nat}
    {io1 : IOManager} (hinv : Inv io) (h : idleEvent io rt2 idx revents = .ok io1) : Inv io1 := by
  unfold idleEvent at h
  simp only at h
  split at h
  · cases h
  · rename_i c hc
    obtain ⟨hm, hle, hlt⟩ := Inv_bounds hinv hc
    split at h
    · cases h; exact hinv
    · split at h
      · cases h; exact Inv_same hinv ⟨rfl, rfl⟩
      · split at h
        · cases h
        · rename_i st1 hf1
          split at h
          · cases h
          · rename_i st2 hf2
            cases h
            obtain ⟨p1, q1, c1⟩ := st1
            obtain ⟨p2, q2, c2⟩ := st2
            have k1 := fireIf_keeps (k := io.m_pendingEventCount - popcount c.events) hf1 hm
              (by omega) (by omega)
            have k2 := fireIf_keeps hf2 k1.1 k1.2.1 k1.2.2
            exact Inv_set hinv hc k2.1 (by have := k2.2.1; simp only; omega)

theorem Inv_init : Inv IOManager.init := by
  refine ⟨?_, by decide, by decide⟩
  intro c hc
  have : ∀ c ∈ IOManager.init.m_fdContexts, c.events = 0 := by decide
  exact Or.inl (this c hc)

/-- C8: `m_pendingEventCount` equals the sum over the table of the number of registered
directions. The invariant `Inv` (that equality, every mask a set of directions, the
table size within `int`) holds for a fresh manager and is kept by every returning
call of `addEvent` (for an fd whose `fd * 1.5` fits an `int`), `delEvent`,
`cancelEvent`, `cancelAll`, and by `idle` handling one reported event, whatever the
reported mask and whatever the kernel answers. -/
theorem pending_count_invariant :
    (∀ io, Inv io → io.m_pendingEventCount = registered io.m_fdContexts) ∧
    Inv IOManager.init ∧
    (∀ io env rt fd event cb r io1, Inv io → growSize fd < 2 ^ 31 →
      addEvent io env rt fd event cb = .ok (r, io1) → Inv io1) ∧
    (∀ io rt fd event r io1, Inv io → delEvent io rt fd event = .ok (r, io1) → Inv io1) ∧
    (∀ io rt fd event r io1, Inv io → cancelEvent io rt fd event = .ok (r, io1) → Inv io1) ∧
    (∀ io rt fd r io1, Inv io → cancelAll io rt fd = .ok (r, io1) → Inv io1) ∧
    (∀ io rt2 idx revents io1, Inv io → idleEvent io rt2 idx revents = .ok io1 → Inv io1) :=
  ⟨fun _ h => h.2.1, Inv_init,
    fun _ _ _ _ _ _ _ _ hinv hg h => addEvent_preserves hinv hg h,
    fun _ _ _ _ _ _ hinv h => delEvent_preserves hinv h,
    fun _ _ _ _ _ _ hinv h => cancelEvent_preserves hinv h,
    fun _ _ _ _ _ hinv h => cancelAll_preserves hinv h,
    fun _ _ _ _ _ hinv h => idleEvent_preserves hinv h⟩

/-- C8, instance: the invariant holds after `addEvent(3, READ, cb 7)` on a fresh manager
and is kept when `idle` then handles `EPOLLIN` for that fd, which leaves no registered
direction and a zero counter. -/
theorem pending_count_invariant_witness :
    Inv ioRead3 ∧ Inv ioFired3 ∧ idleEvent ioRead3 0 3 EPOLLIN = .ok ioFired3 ∧
      ioFired3.m_pendingEventCount = 0 ∧ registered ioFired3.m_fdContexts = 0 := by
  have hinv1 := pending_count_invariant.2.2.1 _ _ _ _ _ _ _ _ pending_count_invariant.2.1
    (by decide) ioRead3_eq
  have h2 : idleEvent ioRead3 0 3 EPOLLIN = .ok ioFired3 := by decide
  have hinv2 := pending_count_invariant.2.2.2.2.2.2 _ _ _ _ _ hinv1 h2
  exact ⟨hinv1, hinv2, h2, rfl, by rw [← pending_count_invariant.1 _ hinv2]; rfl⟩

/-! ## Timer::cancel -/

theorem deadline_set_cb (heap : List Timer) (t : Nat) (tmr : Timer) (cb : Option Nat)
    (h : heap[t]? = some tmr) (x : Nat) :
    deadline (heap.set t { tmr with m_cb := cb }) x = deadline heap x := by
  unfold deadline
  rw [List.getElem?_set]
  by_cases hx : t = x
  · subst hx
    have hlt : t < heap.length := (List.getElem?_eq_some_iff.mp h).1
    simp only [if_true, hlt, h]
  · simp only [hx, if_false]

theorem Comparator_set_cb (heap : List Timer) (t : Nat) (tmr : Timer) (cb : Option Nat)
    (h : heap[t]? = some tmr) (x y : Nat) :
    Comparator (heap.set t { tmr with m_cb := cb }) x y = Comparator heap x y := by
  unfold Comparator
  rw [deadline_set_cb heap t tmr cb h, deadline_set_cb heap t tmr cb h]

theorem lowerBound_set_cb (heap : List Timer) (t : Nat) (tmr : Timer) (cb : Option Nat)
    (h : heap[t]? = some tmr) (s : List Nat) (x : Nat) :
    lowerBound (heap.set t { tmr with m_cb := cb }) s x = lowerBound heap s x := by
  induction s with
  | nil => rfl
  | cons y ys ih => simp only [lowerBound, Comparator_set_cb heap t tmr cb h, ih]

theorem setFind_set_cb (heap : List Timer) (t : Nat) (tmr : Timer) (cb : Option Nat)
    (h : heap[t]? = some tmr) (s : List Nat) (x : Nat) :
    setFind (heap.set t { tmr with m_cb := cb }) s x = setFind heap s x := by
  simp only [setFind, lowerBound_set_cb heap t tmr cb h, Comparator_set_cb heap t tmr cb h]

/-- In a well-ordered set, `find` of a member returns the position of that very
member, and erasing there removes it. -/
theorem setFind_of_mem (heap : List Timer) (s : List Nat) (t : Nat)
    (hs : s.Pairwise fun a b => deadline heap a < deadline heap b) (ht : t ∈ s) :
    setFind heap s t = some (lowerBound heap s t) ∧
      s.eraseIdx (lowerBound heap s t) = s.erase t := by
  have hirr : Comparator heap t t = false := by
    unfold Comparator; simp
  have key : s[lowerBound heap s t]? = some t ∧ s.eraseIdx (lowerBound heap s t) = s.erase t := by
    induction s with
    | nil => cases ht
    | cons y ys ih =>
      rw [List.pairwise_cons] at hs
      by_cases hy : y = t
      · subst hy
        simp only [lowerBound, hirr, Bool.false_eq_true, ite_false, List.getElem?_cons_zero,
          List.eraseIdx_cons_zero, List.erase_cons_head, and_self]
      · have hmem : t ∈ ys := by
          rcases List.mem_cons.mp ht with h | h
          · exact absurd h.symm hy
          · exact h
        have hlt : Comparator heap y t = true := by
          unfold Comparator; simpa using hs.1 t hmem
        obtain ⟨h1, h2⟩ := ih hs.2 hmem
        have hne : ¬ (y == t) = true := by simpa using hy
        simp only [lowerBound, hlt, ite_true, List.getElem?_cons_succ, h1,
          List.eraseIdx_cons_succ, h2, List.erase_cons_tail hne, and_self]
  refine ⟨?_, key.2⟩
  simp only [setFind, key.1, hirr, Bool.false_eq_true, ite_false]

theorem SetOk_nodup {tm : TimerManager} (h : SetOk tm) : tm.m_timers.Nodup := by
  unfold SetOk at h
  exact h.imp (fun {a b} hab heq => by subst heq; exact lt_irrefl _ hab)

/-- C9: `Timer::cancel` is idempotent. On a pending timer (callback set, member of the
well-ordered set) the first `cancel()` returns true, clears the callback and erases
the timer, and only it, from the set; a second `cancel()` returns false and changes
nothing. After the loop body of `listExpiredCb` has taken the callback of a
non-recurring timer, `cancel()` on that timer returns false and changes nothing. -/
theorem Timer_cancel_idempotent :
    (∀ (tm : TimerManager) (t : Nat) (tmr : Timer),
      tm.heap[t]? = some tmr → tmr.m_cb ≠ none → t ∈ tm.m_timers → SetOk tm →
      ∃ tm1, Timer.cancel tm t = some (true, tm1) ∧
        tm1.heap = tm.heap.set t { tmr with m_cb := none } ∧
        tm1.heap[t]? = some { tmr with m_cb := none } ∧
        tm1.m_timers = tm.m_timers.erase t ∧ t ∉ tm1.m_timers ∧
        Timer.cancel tm1 t = some (false, tm1)) ∧
    (∀ (tm : TimerManager) (now : Int) (cbs : List (Option Nat)) (t : Nat) (rest : List Nat)
      (tmr : Timer),
      tm.m_timers = t :: rest → tm.heap[t]? = some tmr → tmr.m_recurring = false →
      ∃ tm1, expireHead now tm cbs = some (tm1, cbs ++ [tmr.m_cb]) ∧
        Timer.cancel tm1 t = some (false, tm1)) := by
  constructor
  · intro tm t tmr hget hcb hmem hok
    have hlt : t < tm.heap.length := (List.getElem?_eq_some_iff.mp hget).1
    obtain ⟨hf, he⟩ := setFind_of_mem tm.heap tm.m_timers t hok hmem
    have hget1 : (tm.heap.set t { tmr with m_cb := none })[t]? = some { tmr with m_cb := none } :=
      List.getElem?_set_self hlt
    refine ⟨{ tm with heap := tm.heap.set t { tmr with m_cb := none },
                      m_timers := tm.m_timers.erase t }, ?_, rfl, hget1, rfl, ?_, ?_⟩
    · simp only [Timer.cancel, hget, hcb, ite_false, setFind_set_cb tm.heap t tmr none hget, hf, he]
    · exact fun h => ((SetOk_nodup hok).mem_erase_iff.mp h).1 rfl
    · simp only [Timer.cancel, hget1, ite_true]
  · intro tm now cbs t rest tmr hset hget hrec
    have hlt : t < tm.heap.length := (List.getElem?_eq_some_iff.mp hget).1
    have hget1 : (tm.heap.set t { tmr with m_cb := none })[t]? = some { tmr with m_cb := none } :=
      List.getElem?_set_self hlt
    refine ⟨{ tm with heap := tm.heap.set t { tmr with m_cb := none }, m_timers := rest }, ?_, ?_⟩
    · simp only [expireHead, hset, hget, hrec, Bool.false_eq_true, ite_false]
    · simp only [Timer.cancel, hget1, ite_true]

/-- C9, instance: of two pending timers the second is cancelled: the first call returns
true and leaves only timer 0 in the set, the second call returns false; and after the
loop body of `listExpiredCb` has taken the callback of timer 0, cancelling it returns
false. -/
theorem Timer_cancel_idempotent_witness :
    (∃ tm1, Timer.cancel tmTwo 1 = some (true, tm1) ∧ tm1.m_timers = [0] ∧
      Timer.cancel tm1 1 = some (false, tm1)) ∧
    (∃ tm1, expireHead 6000000 tmTwo [] = some (tm1, [some 1]) ∧
      Timer.cancel tm1 0 = some (false, tm1)) := by
  constructor
  · obtain ⟨tm1, h1, _, _, h4, _, h6⟩ := Timer_cancel_idempotent.1 tmTwo 1
      { m_ms := 7, m_next := 7000000, m_cb := some 2 } (by decide) (by decide) (by decide)
      (by unfold SetOk; decide)
    exact ⟨tm1, h1, by rw [h4]; decide, h6⟩
  · exact Timer_cancel_idempotent.2 tmTwo 6000000 [] 0 [1]
      { m_ms := 5, m_next := 5000000, m_cb := some 1 } rfl (by decide) rfl

/-! ## listExpiredCb -/

/-- C10, the code at the failing input: two recurring timers of period 10 ms, due at
5 ms and 6 ms, and `listExpiredCb` at 7 ms without rollover. Both callbacks are
returned, timer 0 is re-inserted at 17 ms, but timer 1, re-deadlined to the same 17 ms,
compares equivalent to timer 0 and `insert` drops it: it keeps its callback and is no
longer in the set. -/
theorem listExpiredCb_drops_recurring :
    listExpiredCb 3 7000000 7000000 tmTwoRecurring [] =
      some ({ heap := [{ m_recurring := true, m_ms := 10, m_next := 17000000, m_cb := some 1 },
                       { m_recurring := true, m_ms := 10, m_next := 17000000, m_cb := some 2 }]
              m_timers := [0]
              m_tickled := false
              m_previouseTime := 7000000 }, [some 1, some 2]) ∧
    (detectClockRollover tmTwoRecurring 7000000).1 = false := by
  decide

/-! ## Well-formed contexts

Empty EventContexts for unregistered directions and a scheduler for every registered
one hold in every state the operations can produce from a fresh manager when every
`addEvent` is called on a thread that has a current scheduler. -/

theorem ctxOk_withEvent {c : FdContext} {event : Event} {e : EventContext} (hc : ctxOk c)
    (hev : event = .READ ∨ event = .WRITE) (hnew : c.events &&& event.toNat = 0)
    (he : e.scheduler.isSome) : ctxOk (c.withEvent event e) := by
  obtain ⟨hm, h1, h2, h3, h4⟩ := hc
  have hmo := (maskOk_or hm hnew (toNat_cases hev)).1
  rcases hev with rfl | rfl
  · have hs : (c.events ||| Event.READ.toNat) &&& Event.READ.toNat ≠ 0 := by
      rw [or_and_self]; decide
    have ho : (c.events ||| Event.READ.toNat) &&& Event.WRITE.toNat =
        c.events &&& Event.WRITE.toNat := or_and_other _ (by decide)
    refine ⟨hmo, fun h => absurd h hs, fun h => h2 ?_, fun _ => he, fun h => h4 ?_⟩
    · rw [← ho]; exact h
    · rw [← ho]; exact h
  · have hs : (c.events ||| Event.WRITE.toNat) &&& Event.WRITE.toNat ≠ 0 := by
      rw [or_and_self]; decide
    have ho : (c.events ||| Event.WRITE.toNat) &&& Event.READ.toNat =
        c.events &&& Event.READ.toNat := or_and_other _ (by decide)
    refine ⟨hmo, fun h => h1 ?_, fun h => absurd h hs, fun h => h3 ?_, fun _ => he⟩
    · rw [← ho]; exact h
    · rw [← ho]; exact h

theorem andNot_maskOk {m e : Nat} (hm : maskOk m) (he : e = 1 ∨ e = 4) : maskOk (andNot m e) := by
  rcases he with rfl | rfl <;> rcases hm with rfl | rfl | rfl | rfl <;> decide

theorem ctxOk_withoutEvent {c : FdContext} {event : Event} (hc : ctxOk c)
    (hev : event = .READ ∨ event = .WRITE) : ctxOk (c.withoutEvent event) := by
  obtain ⟨hm, h1, h2, h3, h4⟩ := hc
  have hmo := andNot_maskOk hm (toNat_cases hev)
  rcases hev with rfl | rfl
  · have hs : andNot c.events Event.READ.toNat &&& Event.READ.toNat = 0 := andNot_and_self _ _
    have ho : andNot c.events Event.READ.toNat &&& Event.WRITE.toNat =
        c.events &&& Event.WRITE.toNat := andNot_and_other _ (by decide)
    refine ⟨hmo, fun _ => rfl, fun h => h2 ?_, fun h => absurd hs h, fun h => h4 ?_⟩
    · rw [← ho]; exact h
    · rw [← ho]; exact h
  · have hs : andNot c.events Event.WRITE.toNat &&& Event.WRITE.toNat = 0 := andNot_and_self _ _
    have ho : andNot c.events Event.WRITE.toNat &&& Event.READ.toNat =
        c.events &&& Event.READ.toNat := andNot_and_other _ (by decide)
    refine ⟨hmo, fun h => h1 ?_, fun _ => rfl, fun h => h3 ?_, fun h => absurd hs h⟩
    · rw [← ho]; exact h
    · rw [← ho]; exact h

theorem tableOk_set {t : List FdContext} {i : Nat} {b : FdContext}
    (h : ∀ c ∈ t, ctxOk c) (hb : ctxOk b) : ∀ c ∈ t.set i b, ctxOk c := by
  intro c hc
  rcases List.mem_or_eq_of_mem_set hc with h1 | rfl
  · exact h c h1
  · exact hb

theorem tableOk_addEventTable {t : List FdContext} {fd : Int} (h : ∀ c ∈ t, ctxOk c)
    (hlen : t.length < 2 ^ 31) : ∀ c ∈ addEventTable t fd, ctxOk c := by
  unfold addEventTable
  split
  · exact h
  · rename_i hlt
    rw [castInt_of_lt hlen] at hlt
    have hle : t.length ≤ growSize fd := by
      unfold growSize; omega
    rw [contextResize_of_le hle]
    intro c hc
    rcases List.mem_append.mp hc with h1 | h1
    · exact h c h1
    · obtain ⟨i, _, rfl⟩ := List.mem_map.mp h1
      exact ⟨Or.inl rfl, fun _ => rfl, fun _ => rfl, fun h => absurd (Nat.zero_and _) h,
        fun h => absurd (Nat.zero_and _) h⟩

/-- What a successful `triggerEvent` returns. -/
theorem triggerEvent_ok_ctx {q q1 : List (Nat × ScheduleTask)} {c c1 : FdContext} {event : Event}
    (h : c.triggerEvent q event = .ok (q1, c1)) :
    (event = .READ ∨ event = .WRITE) ∧ c1 = c.withoutEvent event := by
  unfold FdContext.triggerEvent at h
  split at h
  · cases h
  · rename_i hreg
    cases event with
    | NONE => exact absurd (Nat.and_zero _) hreg
    | READ =>
      simp only [FdContext.getEventContext] at h
      split at h
      · cases h
      · cases h; exact ⟨Or.inl rfl, rfl⟩
    | WRITE =>
      simp only [FdContext.getEventContext] at h
      split at h
      · cases h
      · cases h; exact ⟨Or.inr rfl, rfl⟩

theorem fireIf_ctxOk {cond : Bool} {event : Event} {p p1 : Nat}
    {q q1 : List (Nat × ScheduleTask)} {c c1 : FdContext}
    (h : fireIf cond event (p, q, c) = .ok (p1, q1, c1)) (hc : ctxOk c) : ctxOk c1 := by
  unfold fireIf at h
  split at h
  · split at h
    · cases h
    · rename_i q2 c2 htr
      dsimp only at htr
      obtain ⟨h1, h2⟩ := triggerEvent_ok_ctx htr
      simp only [Except.ok.injEq, Prod.mk.injEq] at h
      obtain ⟨_, _, rfl⟩ := h
      rw [h2]
      exact ctxOk_withoutEvent hc h1
  · simp only [Except.ok.injEq, Prod.mk.injEq] at h
    obtain ⟨_, _, rfl⟩ := h
    exact hc

/-- Well-formedness of the table holds for a fresh manager and is kept by every
returning call of the operations; `addEvent` is called on a thread that has a
scheduler. -/
theorem tableOk_invariant :
    tableOk IOManager.init ∧
    (∀ io env rt fd event cb r io1, tableOk io → io.m_fdContexts.length < 2 ^ 31 →
      env.scheduler.isSome → addEvent io env rt fd event cb = .ok (r, io1) → tableOk io1) ∧
    (∀ io rt fd event r io1, tableOk io → delEvent io rt fd event = .ok (r, io1) → tableOk io1) ∧
    (∀ io rt fd event r io1, tableOk io → cancelEvent io rt fd event = .ok (r, io1) →
      tableOk io1) ∧
    (∀ io rt fd r io1, tableOk io → cancelAll io rt fd = .ok (r, io1) → tableOk io1) ∧
    (∀ io rt2 idx revents io1, tableOk io → idleEvent io rt2 idx revents = .ok io1 →
      tableOk io1) := by
  refine ⟨?_, ?_, ?_, ?_, ?_, ?_⟩
  · have : ∀ c ∈ IOManager.init.m_fdContexts, c.events = 0 ∧ c.read = {} ∧ c.write = {} := by
      decide
    intro c hc
    obtain ⟨h1, h2, h3⟩ := this c hc
    refine ⟨Or.inl h1, fun _ => h2, fun _ => h3, fun h => ?_, fun h => ?_⟩ <;>
      rw [h1] at h <;> exact absurd (Nat.zero_and _) h
  · intro io env rt fd event cb r io1 hok hlen hsch h
    have ht := @tableOk_addEventTable io.m_fdContexts fd hok hlen
    unfold tableOk
    rcases addEvent_ok h with rfl | ⟨_, htab⟩
    · obtain ⟨fd_ctx, _, hc, hnew, hev, _, _, htab⟩ := addEvent_ok_zero h
      rw [htab]
      exact tableOk_set ht (ctxOk_withEvent (ht fd_ctx (List.getElem?_mem hc)) hev hnew hsch)
    · rw [htab]; exact ht
  · intro io rt fd event r io1 hok h
    unfold tableOk
    unfold delEvent at h
    simp only at h
    split at h
    · split at h
      · cases h
      · rename_i c hs
        obtain ⟨_, hc⟩ := slot_ok hs
        split at h
        · cases h; exact hok
        · rename_i hreg
          split at h
          · cases h; exact hok
          · cases event with
            | NONE => exact absurd (Nat.and_zero _) hreg
            | READ =>
              simp only [FdContext.getEventContext] at h
              cases h
              exact tableOk_set hok
                (@ctxOk_withoutEvent c .READ (hok c (List.getElem?_mem hc)) (Or.inl rfl))
            | WRITE =>
              simp only [FdContext.getEventContext] at h
              cases h
              exact tableOk_set hok
                (@ctxOk_withoutEvent c .WRITE (hok c (List.getElem?_mem hc)) (Or.inr rfl))
    · cases h; exact hok
  · intro io rt fd event r io1 hok h
    unfold tableOk
    unfold cancelEvent at h
    simp only at h
    split at h
    · split at h
      · cases h
      · rename_i c hs
        obtain ⟨_, hc⟩ := slot_ok hs
        split at h
        · cases h; exact hok
        · split at h
          · cases h; exact hok
          · split at h
            · cases h
            · rename_i q c1 htr
              obtain ⟨h1, h2⟩ := triggerEvent_ok_ctx htr
              cases h
              rw [h2]
              exact tableOk_set hok (ctxOk_withoutEvent (hok c (List.getElem?_mem hc)) h1)
    · cases h; exact hok
  · intro io rt fd r io1 hok h
    unfold tableOk
    unfold cancelAll at h
    simp only at h
    split at h
    · split at h
      · cases h
      · rename_i c hs
        obtain ⟨_, hc⟩ := slot_ok hs
        split at h
        · cases h; exact hok
        · split at h
          · cases h; exact hok
          · split at h
            · cases h
            · rename_i st1 hf1
              split at h
              · cases h
              · rename_i st2 hf2
                split at h
                · cases h
                · cases h
                  obtain ⟨p1, q1, c1⟩ := st1
                  obtain ⟨p2, q2, c2⟩ := st2
                  exact tableOk_set hok
                    (fireIf_ctxOk hf2 (fireIf_ctxOk hf1 (hok c (List.getElem?_mem hc))))
    · cases h; exact hok
  · intro io rt2 idx revents io1 hok h
    unfold tableOk
    unfold idleEvent at h
    simp only at h
    split at h
    · cases h
    · rename_i c hc
      split at h
      · cases h; exact hok
      · split at h
        · cases h; exact hok
        · split at h
          · cases h
          · rename_i st1 hf1
            split at h
            · cases h
            · rename_i st2 hf2
              cases h
              obtain ⟨p1, q1, c1⟩ := st1
              obtain ⟨p2, q2, c2⟩ := st2
              exact tableOk_set hok
                (fireIf_ctxOk hf2 (fireIf_ctxOk hf1 (hok c (List.getElem?_mem hc))))

/-! ## Empty EventContexts of unregistered directions

The hypotheses on the context that do not concern the stored scheduler (the mask is a
set of directions, the EventContext of an unregistered direction is empty) hold in every
state the operations can produce from a fresh manager, whatever thread calls them. -/

theorem ctxClean_withEvent {c : FdContext} {event : Event} (e : EventContext) (hc : ctxClean c)
    (hev : event = .READ ∨ event = .WRITE) (hnew : c.events &&& event.toNat = 0) :
    ctxClean (c.withEvent event e) := by
  obtain ⟨hm, h1, h2⟩ := hc
  have hmo := (maskOk_or hm hnew (toNat_cases hev)).1
  rcases hev with rfl | rfl
  · have hs : (c.events ||| Event.READ.toNat) &&& Event.READ.toNat ≠ 0 := by
      rw [or_and_self]; decide
    have ho : (c.events ||| Event.READ.toNat) &&& Event.WRITE.toNat =
        c.events &&& Event.WRITE.toNat := or_and_other _ (by decide)
    refine ⟨hmo, fun h => absurd h hs, fun h => h2 ?_⟩
    rw [← ho]; exact h
  · have hs : (c.events ||| Event.WRITE.toNat) &&& Event.WRITE.toNat ≠ 0 := by
      rw [or_and_self]; decide
    have ho : (c.events ||| Event.WRITE.toNat) &&& Event.READ.toNat =
        c.events &&& Event.READ.toNat := or_and_other _ (by decide)
    refine ⟨hmo, fun h => h1 ?_, fun h => absurd h hs⟩
    rw [← ho]; exact h

theorem ctxClean_withoutEvent {c : FdContext} {event : Event} (hc : ctxClean c)
    (hev : event = .READ ∨ event = .WRITE) : ctxClean (c.withoutEvent event) := by
  obtain ⟨hm, h1, h2⟩ := hc
  have hmo := andNot_maskOk hm (toNat_cases hev)
  rcases hev with rfl | rfl
  · have hs : andNot c.events Event.READ.toNat &&& Event.READ.toNat = 0 := andNot_and_self _ _
    have ho : andNot c.events Event.READ.toNat &&& Event.WRITE.toNat =
        c.events &&& Event.WRITE.toNat := andNot_and_other _ (by decide)
    refine ⟨hmo, fun _ => rfl, fun h => h2 ?_⟩
    rw [← ho]; exact h
  · have hs : andNot c.events Event.WRITE.toNat &&& Event.WRITE.toNat = 0 := andNot_and_self _ _
    have ho : andNot c.events Event.WRITE.toNat &&& Event.READ.toNat =
        c.events &&& Event.READ.toNat := andNot_and_other _ (by decide)
    refine ⟨hmo, fun h => h1 ?_, fun _ => rfl⟩
    rw [← ho]; exact h

theorem tableClean_set {t : List FdContext} {i : Nat} {b : FdContext}
    (h : ∀ c ∈ t, ctxClean c) (hb : ctxClean b) : ∀ c ∈ t.set i b, ctxClean c := by
  intro c hc
  rcases List.mem_or_eq_of_mem_set hc with h1 | rfl
  · exact h c h1
  · exact hb

theorem tableClean_addEventTable {t : List FdContext} {fd : Int} (h : ∀ c ∈ t, ctxClean c)
    (hlen : t.length < 2 ^ 31) : ∀ c ∈ addEventTable t fd, ctxClean c := by
  unfold addEventTable
  split
  · exact h
  · rename_i hlt
    rw [castInt_of_lt hlen] at hlt
    have hle : t.length ≤ growSize fd := by
      unfold growSize; omega
    rw [contextResize_of_le hle]
    intro c hc
    rcases List.mem_append.mp hc with h1 | h1
    · exact h c h1
    · obtain ⟨i, _, rfl⟩ := List.mem_map.mp h1
      exact ⟨Or.inl rfl, fun _ => rfl, fun _ => rfl⟩

theorem fireIf_ctxClean {cond : Bool} {event : Event} {p p1 : Nat}
    {q q1 : List (Nat × ScheduleTask)} {c c1 : FdContext}
    (h : fireIf cond event (p, q, c) = .ok (p1, q1, c1)) (hc : ctxClean c) : ctxClean c1 := by
  unfold fireIf at h
  split at h
  · split at h
    · cases h
    · rename_i q2 c2 htr
      dsimp only at htr
      obtain ⟨h1, h2⟩ := triggerEvent_ok_ctx htr
      simp only [Except.ok.injEq, Prod.mk.injEq] at h
      obtain ⟨_, _, rfl⟩ := h
      rw [h2]
      exact ctxClean_withoutEvent hc h1
  · simp only [Except.ok.injEq, Prod.mk.injEq] at h
    obtain ⟨_, _, rfl⟩ := h
    exact hc

/-- That masks are sets of directions and unregistered directions have empty
EventContexts holds for a fresh manager and is kept by every returning call of the
operations, on every thread, with or without a current scheduler. -/
theorem tableClean_invariant :
    tableClean IOManager.init ∧
    (∀ io env rt fd event cb r io1, tableClean io → io.m_fdContexts.length < 2 ^ 31 →
      addEvent io env rt fd event cb = .ok (r, io1) → tableClean io1) ∧
    (∀ io rt fd event r io1, tableClean io → delEvent io rt fd event = .ok (r, io1) → tableClean io1) ∧
    (∀ io rt fd event r io1, tableClean io → cancelEvent io rt fd event = .ok (r, io1) →
      tableClean io1) ∧
    (∀ io rt fd r io1, tableClean io → cancelAll io rt fd = .ok (r, io1) → tableClean io1) ∧
    (∀ io rt2 idx revents io1, tableClean io → idleEvent io rt2 idx revents = .ok io1 →
      tableClean io1) := by
  refine ⟨?_, ?_, ?_, ?_, ?_, ?_⟩
  · have : ∀ c ∈ IOManager.init.m_fdContexts, c.events = 0 ∧ c.read = {} ∧ c.write = {} := by
      decide
    intro c hc
    obtain ⟨h1, h2, h3⟩ := this c hc
    exact ⟨Or.inl h1, fun _ => h2, fun _ => h3⟩
  · intro io env rt fd event cb r io1 hok hlen h
    have ht := @tableClean_addEventTable io.m_fdContexts fd hok hlen
    unfold tableClean
    rcases addEvent_ok h with rfl | ⟨_, htab⟩
    · obtain ⟨fd_ctx, _, hc, hnew, hev, _, _, htab⟩ := addEvent_ok_zero h
      rw [htab]
      exact tableClean_set ht (ctxClean_withEvent _ (ht fd_ctx (List.getElem?_mem hc)) hev hnew)
    · rw [htab]; exact ht
  · intro io rt fd event r io1 hok h
    unfold tableClean
    unfold delEvent at h
    simp only at h
    split at h
    · split at h
      · cases h
      · rename_i c hs
        obtain ⟨_, hc⟩ := slot_ok hs
        split at h
        · cases h; exact hok
        · rename_i hreg
          split at h
          · cases h; exact hok
          · cases event with
            | NONE => exact absurd (Nat.and_zero _) hreg
            | READ =>
              simp only [FdContext.getEventContext] at h
              cases h
              exact tableClean_set hok
                (@ctxClean_withoutEvent c .READ (hok c (List.getElem?_mem hc)) (Or.inl rfl))
            | WRITE =>
              simp only [FdContext.getEventContext] at h
              cases h
              exact tableClean_set hok
                (@ctxClean_withoutEvent c .WRITE (hok c (List.getElem?_mem hc)) (Or.inr rfl))
    · cases h; exact hok
  · intro io rt fd event r io1 hok h
    unfold tableClean
    unfold cancelEvent at h
    simp only at h
    split at h
    · split at h
      · cases h
      · rename_i c hs
        obtain ⟨_, hc⟩ := slot_ok hs
        split at h
        · cases h; exact hok
        · split at h
          · cases h; exact hok
          · split at h
            · cases h
            · rename_i q c1 htr
              obtain ⟨h1, h2⟩ := triggerEvent_ok_ctx htr
              cases h
              rw [h2]
              exact tableClean_set hok (ctxClean_withoutEvent (hok c (List.getElem?_mem hc)) h1)
    · cases h; exact hok
  · intro io rt fd r io1 hok h
    unfold tableClean
    unfold cancelAll at h
    simp only at h
    split at h
    · split at h
      · cases h
      · rename_i c hs
        obtain ⟨_, hc⟩ := slot_ok hs
        split at h
        · cases h; exact hok
        · split at h
          · cases h; exact hok
          · split at h
            · cases h
            · rename_i st1 hf1
              split at h
              · cases h
              · rename_i st2 hf2
                split at h
                · cases h
                · cases h
                  obtain ⟨p1, q1, c1⟩ := st1
                  obtain ⟨p2, q2, c2⟩ := st2
                  exact tableClean_set hok
                    (fireIf_ctxClean hf2 (fireIf_ctxClean hf1 (hok c (List.getElem?_mem hc))))
    · cases h; exact hok
  · intro io rt2 idx revents io1 hok h
    unfold tableClean
    unfold idleEvent at h
    simp only at h
    split at h
    · cases h
    · rename_i c hc
      split at h
      · cases h; exact hok
      · split at h
        · cases h; exact hok
        · split at h
          · cases h
          · rename_i st1 hf1
            split at h
            · cases h
            · rename_i st2 hf2
              cases h
              obtain ⟨p1, q1, c1⟩ := st1
              obtain ⟨p2, q2, c2⟩ := st2
              exact tableClean_set hok
                (fireIf_ctxClean hf2 (fireIf_ctxClean hf1 (hok c (List.getElem?_mem hc))))

/-! ## The order invariant of the timer set

`SetOk`, assumed of the set in the statement about `cancel`, is kept by `cancel` and
by the loop body of `listExpiredCb`: a key is only changed while its timer is out of
the set. -/

theorem mem_setInsert {heap : List Timer} {s : List Nat} {x a : Nat}
    (h : a ∈ setInsert heap s x) : a = x ∨ a ∈ s := by
  induction s with
  | nil =>
    simp only [setInsert, List.mem_singleton] at h
    exact Or.inl h
  | cons y ys ih =>
    unfold setInsert at h
    split at h
    · rcases List.mem_cons.mp h with h1 | h1
      · exact Or.inl h1
      · exact Or.inr h1
    · split at h
      · rcases List.mem_cons.mp h with h1 | h1
        · exact Or.inr (h1 ▸ List.mem_cons_self _ _)
        · rcases ih h1 with h2 | h2
          · exact Or.inl h2
          · exact Or.inr (List.mem_cons_of_mem _ h2)
      · exact Or.inr h

theorem setInsert_pairwise {heap : List Timer} {s : List Nat} (x : Nat)
    (hs : s.Pairwise fun a b => deadline heap a < deadline heap b) :
    (setInsert heap s x).Pairwise fun a b => deadline heap a < deadline heap b := by
  induction s with
  | nil => simp [setInsert]
  | cons y ys ih =>
    have hs1 := List.pairwise_cons.mp hs
    unfold setInsert
    split
    · rename_i hxy
      have hxy1 : deadline heap x < deadline heap y := by
        unfold Comparator at hxy; simpa using hxy
      refine List.pairwise_cons.mpr ⟨?_, hs⟩
      intro a ha
      rcases List.mem_cons.mp ha with h1 | h1
      · rw [h1]; exact hxy1
      · exact lt_trans hxy1 (hs1.1 a h1)
    · split
      · rename_i hyx
        have hyx1 : deadline heap y < deadline heap x := by
          unfold Comparator at hyx; simpa using hyx
        refine List.pairwise_cons.mpr ⟨?_, ih hs1.2⟩
        intro a ha
        rcases mem_setInsert ha with h1 | h1
        · rw [h1]; exact hyx1
        · exact hs1.1 a h1
      · exact hs

theorem deadline_set_ne (heap : List Timer) (t : Nat) (tmr : Timer) {x : Nat} (hx : x ≠ t) :
    deadline (heap.set t tmr) x = deadline heap x := by
  unfold deadline
  rw [List.getElem?_set]
  simp only [Ne.symm hx, if_false]

/-- `Timer::cancel` keeps the set well ordered. -/
theorem SetOk_cancel {tm tm1 : TimerManager} {t : Nat} {r : Bool} (hok : SetOk tm)
    (h : Timer.cancel tm t = some (r, tm1)) : SetOk tm1 := by
  unfold Timer.cancel at h
  split at h
  · cases h
  · rename_i tmr hget
    have hcongr : ∀ s : List Nat,
        (s.Pairwise fun a b => deadline tm.heap a < deadline tm.heap b) →
        s.Pairwise fun a b => deadline (tm.heap.set t { tmr with m_cb := none }) a <
          deadline (tm.heap.set t { tmr with m_cb := none }) b := by
      intro s hs
      refine hs.imp ?_
      intro a b hab
      rw [deadline_set_cb tm.heap t tmr none hget, deadline_set_cb tm.heap t tmr none hget]
      exact hab
    split at h
    · cases h; exact hok
    · simp only at h
      split at h
      · cases h
        exact hcongr _ (List.Pairwise.sublist (List.eraseIdx_sublist _ _) hok)
      · cases h
        exact hcongr _ hok

/-- The loop body of `listExpiredCb` keeps the set well ordered. -/
theorem SetOk_expireHead {tm tm1 : TimerManager} {now : Int} {cbs cbs1 : List (Option Nat)}
    (hok : SetOk tm) (h : expireHead now tm cbs = some (tm1, cbs1)) : SetOk tm1 := by
  unfold expireHead at h
  split at h
  · cases h
  · rename_i temp rest hset
    unfold SetOk at hok
    rw [hset] at hok
    have hp := List.pairwise_cons.mp hok
    have hnot : ∀ a ∈ rest, a ≠ temp := by
      intro a ha heq
      have := hp.1 a ha
      rw [heq] at this
      exact lt_irrefl _ this
    have hcongr : ∀ tmr : Timer,
        rest.Pairwise fun a b => deadline (tm.heap.set temp tmr) a <
          deadline (tm.heap.set temp tmr) b := by
      intro tmr
      refine List.Pairwise.imp_of_mem ?_ hp.2
      intro a b ha hb hab
      rw [deadline_set_ne tm.heap temp tmr (hnot a ha),
        deadline_set_ne tm.heap temp tmr (hnot b hb)]
      exact hab
    split at h
    · cases h
    · rename_i tmr hget
      split at h
      · cases h
        exact setInsert_pairwise temp (hcongr _)
      · cases h
        exact hcongr _

/-! ## listExpiredCb: termination and the rollover flush -/

/-- Under rollover, a set that holds one recurring timer keeps the loop of
`listExpiredCb` running for any number of iterations: the timer is re-inserted each
time and `!empty && rollover` stays true. -/
theorem expireLoop_recurring_rollover (now : Int) (fuel : Nat) :
    ∀ (tm : TimerManager) (cbs : List (Option Nat)) (t : Nat) (tmr : Timer),
      tm.m_timers = [t] → tm.heap[t]? = some tmr → tmr.m_recurring = true →
      expireLoop now true fuel tm cbs = none := by
  induction fuel with
  | zero => intro tm cbs t tmr _ _ _; rfl
  | succ n ih =>
    intro tm cbs t tmr hset hget hrec
    have hlt : t < tm.heap.length := (List.getElem?_eq_some_iff.mp hget).1
    have hc : expireCond now true tm = true := by
      simp only [expireCond, hset, Bool.true_or]
    have hh : expireHead now tm cbs = some
        ({ tm with heap := tm.heap.set t { tmr with m_next := now + msTicks tmr.m_ms },
                   m_timers := [t] }, cbs ++ [tmr.m_cb]) := by
      simp only [expireHead, hset, hget, hrec, ite_true, setInsert]
    rw [expireLoop, if_pos hc, hh]
    exact ih _ _ t { tmr with m_next := now + msTicks tmr.m_ms } rfl
      (List.getElem?_set_self hlt) hrec

/-- Without rollover, a set that holds one recurring timer of period 0 that is due keeps
the loop of `listExpiredCb` running for any number of iterations: the timer is
re-inserted with deadline `now`, which is again `<= now`. -/
theorem expireLoop_recurring_zero (now : Int) (fuel : Nat) :
    ∀ (tm : TimerManager) (cbs : List (Option Nat)) (t : Nat) (tmr : Timer),
      tm.m_timers = [t] → tm.heap[t]? = some tmr → tmr.m_recurring = true → tmr.m_ms = 0 →
      tmr.m_next ≤ now → expireLoop now false fuel tm cbs = none := by
  induction fuel with
  | zero => intro tm cbs t tmr _ _ _ _ _; rfl
  | succ n ih =>
    intro tm cbs t tmr hset hget hrec hms hdue
    have hlt : t < tm.heap.length := (List.getElem?_eq_some_iff.mp hget).1
    have hc : expireCond now false tm = true := by
      simp only [expireCond, hset, deadline, hget, Bool.false_or, decide_eq_true_eq]
      exact hdue
    have hh : expireHead now tm cbs = some
        ({ tm with heap := tm.heap.set t { tmr with m_next := now + msTicks tmr.m_ms },
                   m_timers := [t] }, cbs ++ [tmr.m_cb]) := by
      simp only [expireHead, hset, hget, hrec, ite_true, setInsert]
    rw [expireLoop, if_pos hc, hh]
    refine ih _ _ t { tmr with m_next := now + msTicks tmr.m_ms } rfl
      (List.getElem?_set_self hlt) hrec hms ?_
    show now + msTicks tmr.m_ms ≤ now
    rw [hms]
    have h0 : msTicks 0 = 0 := by decide
    rw [h0]; simp

/-- C11: the rollover flush. At the example input (three non-recurring timers due 10 s,
20 s and 30 s after the reading of three hours, clock read two hours earlier)
`listExpiredCb` returns the three callbacks in deadline order, leaves the set empty
and records the new reading. At the failing input (one recurring timer of period 50 ms,
same clock) rollover is detected and the call does not return: for every bound on the
number of loop iterations the loop is still running. -/
theorem listExpiredCb_rollover_flush :
    listExpiredCb 4 hourTicks hourTicks tmThree [] =
      some ({ tmThree with
        heap := [{ m_ms := 10000, m_next := 3 * hourTicks + 10000 * ticksPerMs, m_cb := none },
                 { m_ms := 20000, m_next := 3 * hourTicks + 20000 * ticksPerMs, m_cb := none },
                 { m_ms := 30000, m_next := 3 * hourTicks + 30000 * ticksPerMs, m_cb := none }],
        m_timers := [],
        m_previouseTime := hourTicks }, [some 1, some 2, some 3]) ∧
    (detectClockRollover tmOneRecurring hourTicks).1 = true ∧
    ∀ fuel, listExpiredCb fuel hourTicks hourTicks tmOneRecurring [] = none := by
  refine ⟨by decide, by decide, ?_⟩
  intro fuel
  have hr : (detectClockRollover tmOneRecurring hourTicks).1 = true := by decide
  unfold listExpiredCb
  simp only [hr]
  exact expireLoop_recurring_rollover hourTicks fuel _ [] 0
    { m_recurring := true, m_ms := 50, m_next := 3 * hourTicks + 50 * ticksPerMs, m_cb := some 1 }
    rfl rfl rfl

/-- C20: termination of `listExpiredCb` fails. Whenever the set holds exactly one timer
and that timer is recurring, the loop runs beyond every bound on its iterations, adding
the callback once per iteration, (1) under rollover, whatever the period and deadline,
and (2) without rollover when the period is 0 ms and the timer is due; so
`listExpiredCb` returns for no amount of fuel at the inputs `tmOneRecurring` (clock
read three hours back) and `tmZeroPeriod` (clock read at the deadline). -/
theorem listExpiredCb_diverges :
    (∀ (now : Int) (fuel : Nat) (tm : TimerManager) (cbs : List (Option Nat)) (t : Nat)
      (tmr : Timer), tm.m_timers = [t] → tm.heap[t]? = some tmr → tmr.m_recurring = true →
      expireLoop now true fuel tm cbs = none) ∧
    (∀ (now : Int) (fuel : Nat) (tm : TimerManager) (cbs : List (Option Nat)) (t : Nat)
      (tmr : Timer), tm.m_timers = [t] → tm.heap[t]? = some tmr → tmr.m_recurring = true →
      tmr.m_ms = 0 → tmr.m_next ≤ now → expireLoop now false fuel tm cbs = none) ∧
    (∀ fuel, listExpiredCb fuel 0 0 tmOneRecurring [] = none) ∧
    (∀ fuel, listExpiredCb fuel 0 0 tmZeroPeriod [] = none) := by
  refine ⟨fun now fuel => expireLoop_recurring_rollover now fuel,
    fun now fuel => expireLoop_recurring_zero now fuel, ?_, ?_⟩
  · intro fuel
    have hr : (detectClockRollover tmOneRecurring 0).1 = true := by decide
    unfold listExpiredCb
    simp only [hr]
    exact expireLoop_recurring_rollover _ fuel _ [] 0
      { m_recurring := true, m_ms := 50, m_next := 3 * hourTicks + 50 * ticksPerMs,
        m_cb := some 1 } rfl rfl rfl
  · intro fuel
    have hr : (detectClockRollover tmZeroPeriod 0).1 = false := by decide
    unfold listExpiredCb
    simp only [hr]
    exact expireLoop_recurring_zero 0 fuel _ [] 0
      { m_recurring := true, m_ms := 0, m_next := 0, m_cb := some 1 } rfl rfl rfl rfl
      (le_refl _)

/-! ## Timers with equal deadlines, and refresh -/

theorem tmOne_eq : ({} : TimerManager).addTimerNew 0 10 (some 1) false = (0, tmOne, true) := by
  decide

theorem tmTied_eq :
    (tmOne.getNextTimer 0).2.addTimerNew 1000000 9 (some 2) false = (1, tmTied, true) := by
  decide

theorem tmDropped_eq :
    listExpiredCb 3 7000000 7000000 tmTwoRecurring [] = some (tmDropped, [some 1, some 2]) := by
  decide

/-- C12, the code at the failing inputs. (1) Timer 0 of `tmOne` is pending with
deadline 10 ms; `refresh()` at a clock reading of -1 ms (the wall clock was set back)
succeeds and moves the deadline to 9 ms, earlier than before. (2) Timer 1 of `tmTied` has
a callback and is not in the set; `refresh()` on it does not return false: `find`
returns timer 0, which has the same deadline, and timer 0 is erased in its place. -/
theorem Timer_refresh_decreases :
    deadline tmOne.heap 0 = 10000000 ∧
    Timer.refresh tmOne (-1000000) 0 =
      some (true, { tmOne with heap := [{ m_ms := 10, m_next := 9000000, m_cb := some 1 }] }) ∧
    (1 ∉ tmTied.m_timers) ∧
    Timer.refresh tmTied 2000000 1 =
      some (true, { tmTied with
        heap := [{ m_ms := 10, m_next := 10000000, m_cb := some 1 },
                 { m_ms := 9, m_next := 11000000, m_cb := some 2 }],
        m_timers := [1] }) := by
  decide

/-- When the clock reading is not earlier than the one at which the deadline was set
(`m_next = start + m_ms` with `start <= now`), the deadline that `refresh` assigns is not
earlier than the old one. -/
theorem refresh_deadline_mono (tmr : Timer) (start now : Int)
    (h0 : tmr.m_next = start + msTicks tmr.m_ms) (h : start ≤ now) :
    tmr.m_next ≤ now + msTicks tmr.m_ms := by
  rw [h0]; omega

/-- Two timers with equal deadlines are equivalent for the comparator. -/
theorem Comparator_tie (heap : List Timer) (a b : Nat) (h : deadline heap a = deadline heap b) :
    Comparator heap a b = false ∧ Comparator heap b a = false := by
  unfold Comparator
  rw [h]
  simp

/-- C13, the code at the failing input. For every two timers with equal deadlines
neither `cmp(a, b)` nor `cmp(b, a)` holds: `Timer::Comparator` looks at `m_next` only.
So `addTimer(10 ms, cb 2)` at the very clock reading at which `addTimer(10 ms, cb 1)` was
called creates timer 1 but does not add it to the set, which still holds timer 0 alone. -/
theorem Comparator_no_tie_break :
    (∀ (heap : List Timer) (a b : Nat), deadline heap a = deadline heap b →
      Comparator heap a b = false ∧ Comparator heap b a = false) ∧
    ({} : TimerManager).addTimerNew 0 10 (some 1) false = (0, tmOne, true) ∧
    tmOne.addTimerNew 0 10 (some 2) false =
      (1, { tmOne with heap := [{ m_ms := 10, m_next := 10000000, m_cb := some 1 },
                                { m_ms := 10, m_next := 10000000, m_cb := some 2 }] }, false) ∧
    (tmOne.addTimerNew 0 10 (some 2) false).2.1.m_timers = [0] := by
  refine ⟨Comparator_tie, ?_, ?_, ?_⟩ <;> decide

/-- Once the hook has been invoked (`m_tickled` set), `addTimer` does not invoke it
again and leaves the mark set; `getNextTimer` clears the mark. -/
theorem addTimer_tickled (tm : TimerManager) (timer : Nat) (now : Int) :
    (tm.m_tickled = true → (tm.addTimer timer).2 = false ∧ (tm.addTimer timer).1.m_tickled = true) ∧
    ((tm.addTimer timer).2 = true → (tm.addTimer timer).1.m_tickled = true) ∧
    (tm.getNextTimer now).2.m_tickled = false := by
  refine ⟨?_, ?_, ?_⟩
  · intro h
    simp [TimerManager.addTimer, h]
  · intro h
    simp only [TimerManager.addTimer] at h ⊢
    simp only [h, ite_true]
  · unfold TimerManager.getNextTimer
    split
    · rfl
    · split <;> rfl

/-- C14, the code at the failing input. With timer 0 pending at 10 ms and no wakeup
pending (after `getNextTimer()`), `addTimer(9 ms, cb 2)` at the clock reading 1 ms
creates timer 1 with the deadline of timer 0; `insert` does not add it and returns the
position of timer 0, the head, so the hook is invoked although timer 1 did not become
the head: it is not in the set at all. -/
theorem addTimer_hook_on_tie :
    (tmOne.getNextTimer 0).2.m_tickled = false ∧
    (tmOne.getNextTimer 0).2.addTimerNew 1000000 9 (some 2) false = (1, tmTied, true) ∧
    tmTied.m_timers = [0] ∧ (1 ∉ tmTied.m_timers) := by
  decide

/-- C19, the code at the failing input. In `tmDropped` (left by `listExpiredCb`, see
`tmDropped_eq`) timer 0 is in the set and timer 1, created by the manager and holding
a callback, has the same deadline. `cancel()` on timer 1 erases timer 0 from the set;
`refresh()` on timer 1 erases timer 0 and inserts timer 1. Either way timer 0, which
was pending before the call, is pending no more. -/
theorem Timer_cancel_refresh_erase_other :
    (0 ∈ tmDropped.m_timers) ∧ (1 ∉ tmDropped.m_timers) ∧
    Timer.cancel tmDropped 1 =
      some (true, { tmDropped with
        heap := [{ m_recurring := true, m_ms := 10, m_next := 17000000, m_cb := some 1 },
                 { m_recurring := true, m_ms := 10, m_next := 17000000, m_cb := none }],
        m_timers := [] }) ∧
    Timer.refresh tmDropped 8000000 1 =
      some (true, { tmDropped with
        heap := [{ m_recurring := true, m_ms := 10, m_next := 17000000, m_cb := some 1 },
                 { m_recurring := true, m_ms := 10, m_next := 18000000, m_cb := some 2 }],
        m_timers := [1] }) := by
  decide

/-! ## Scheduler::run: the dequeue scan -/

theorem scanFrom_skip (thread_id : Int) (active : Nat) (pre : List ScheduleTask)
    (hpre : ∀ x ∈ pre, x.thread ≠ -1 ∧ x.thread ≠ thread_id) :
    ∀ (before rest : List ScheduleTask) (tickle_me : Bool),
      scanFrom thread_id active before (pre ++ rest) tickle_me =
        scanFrom thread_id active (before ++ pre) rest (tickle_me || decide (pre ≠ [])) := by
  induction pre with
  | nil => intro before rest tickle_me; simp
  | cons x xs ih =>
    intro before rest tickle_me
    have hx := hpre x (List.mem_cons_self _ _)
    have hxs : ∀ y ∈ xs, y.thread ≠ -1 ∧ y.thread ≠ thread_id :=
      fun y hy => hpre y (List.mem_cons_of_mem _ hy)
    rw [List.cons_append, scanFrom, if_pos hx, ih hxs]
    simp

/-- Every queue either has a first task that worker `thread_id` may take, behind tasks
pinned to other workers only, or consists of tasks pinned to other workers. -/
theorem queue_split (thread_id : Int) (q : List ScheduleTask) :
    (∃ pre t post, q = pre ++ t :: post ∧ (∀ x ∈ pre, x.thread ≠ -1 ∧ x.thread ≠ thread_id) ∧
      (t.thread = -1 ∨ t.thread = thread_id)) ∨
    (∀ x ∈ q, x.thread ≠ -1 ∧ x.thread ≠ thread_id) := by
  induction q with
  | nil => exact Or.inr (fun x hx => by cases hx)
  | cons y ys ih =>
    by_cases hy : y.thread ≠ -1 ∧ y.thread ≠ thread_id
    · rcases ih with ⟨pre, t, post, h1, h2, h3⟩ | h
      · refine Or.inl ⟨y :: pre, t, post, by rw [h1]; rfl, ?_, h3⟩
        intro x hx
        rcases List.mem_cons.mp hx with rfl | hx
        · exact hy
        · exact h2 x hx
      · refine Or.inr ?_
        intro x hx
        rcases List.mem_cons.mp hx with rfl | hx
        · exact hy
        · exact h x hx
    · refine Or.inl ⟨[], y, ys, rfl, (fun x hx => by cases hx), ?_⟩
      by_cases h1 : y.thread = -1
      · exact Or.inl h1
      · by_cases h2 : y.thread = thread_id
        · exact Or.inr h2
        · exact absurd ⟨h1, h2⟩ hy

/-- C15: one dequeue of the worker loop, for a queue whose tasks `pre` in front are all
pinned to other workers. If the next task `t` is unpinned or pinned to this worker (and
holds a fiber or a callback, as the loop asserts), it is the task taken, the queue
becomes `pre ++ post` with the order of the other tasks kept, and the worker tickles
exactly when it skipped a task (`pre` non-empty) or a task remains (`pre ++ post`
non-empty). If the queue is `pre` alone, nothing is taken, the scheduler is unchanged
and the worker tickles exactly when it skipped a task. -/
theorem takeTask_fifo (sch : Scheduler) (thread_id : Int) (pre post : List ScheduleTask)
    (t : ScheduleTask) (hpre : ∀ x ∈ pre, x.thread ≠ -1 ∧ x.thread ≠ thread_id) :
    (sch.m_tasks = pre ++ t :: post → (t.thread = -1 ∨ t.thread = thread_id) →
      (t.fiber.isSome ∨ t.cb.isSome) →
      sch.takeTask thread_id = .ok (some t,
        { m_tasks := pre ++ post, m_activeThreadCount := sch.m_activeThreadCount + 1 },
        decide (pre ≠ [] ∨ pre ++ post ≠ []))) ∧
    (sch.m_tasks = pre →
      sch.takeTask thread_id = .ok (none, sch, decide (pre ≠ []))) := by
  constructor
  · intro hq hel hwork
    have hnot : ¬ (t.thread ≠ -1 ∧ t.thread ≠ thread_id) := by
      rintro ⟨h1, h2⟩
      rcases hel with h | h
      · exact h1 h
      · exact h2 h
    have hw : (t.fiber.isSome || t.cb.isSome) = true := by
      rcases hwork with h | h <;> simp [h]
    unfold Scheduler.takeTask
    rw [hq, scanFrom_skip thread_id _ pre hpre, scanFrom, if_neg hnot, if_pos hw]
    simp only [List.nil_append, Bool.false_or]
    congr 2
    cases pre <;> cases post <;> simp
  · intro hq
    unfold Scheduler.takeTask
    have h := scanFrom_skip thread_id sch.m_activeThreadCount pre hpre [] [] false
    rw [List.append_nil] at h
    rw [hq, h, scanFrom]
    simp only [List.nil_append, Bool.false_or, Bool.or_false]
    cases sch
    simp only at hq
    subst hq
    rfl

/-- C15, instance: worker 7 on the queue [task pinned to 5, unpinned cb 2, unpinned cb 3]
takes cb 2, leaves [task pinned to 5, cb 3] and tickles; on the queue [task pinned to
5] it takes nothing, leaves the queue and tickles. -/
theorem takeTask_fifo_witness :
    (({ m_tasks := [{ cb := some 1, thread := 5 }, { cb := some 2 }, { cb := some 3 }] } :
        Scheduler).takeTask 7 =
      .ok (some { cb := some 2 },
        { m_tasks := [{ cb := some 1, thread := 5 }, { cb := some 3 }], m_activeThreadCount := 1 },
        true)) ∧
    (({ m_tasks := [{ cb := some 1, thread := 5 }] } : Scheduler).takeTask 7 =
      .ok (none, { m_tasks := [{ cb := some 1, thread := 5 }] }, true)) :=
  ⟨(takeTask_fifo
      { m_tasks := [{ cb := some 1, thread := 5 }, { cb := some 2 }, { cb := some 3 }] } 7
      [{ cb := some 1, thread := 5 }] [{ cb := some 3 }] { cb := some 2 }
      (by decide)).1 rfl (by decide) (by decide),
   (takeTask_fifo { m_tasks := [{ cb := some 1, thread := 5 }] } 7
      [{ cb := some 1, thread := 5 }] [] { cb := some 2 } (by decide)).2 rfl⟩

/-! ## Fiber: the state machine -/

theorem Fiber.step_stack {f f1 : Fiber} {op : FiberOp} (h : f.step op = .ok f1) :
    f1.m_stack = f.m_stack := by
  cases op with
  | resume =>
    simp only [Fiber.step, Fiber.resume] at h
    split at h
    · cases h; rfl
    · cases h
  | yield =>
    simp only [Fiber.step, Fiber.yield] at h
    split at h
    · cases h; split <;> rfl
    · cases h
  | reset cb =>
    simp only [Fiber.step, Fiber.reset] at h
    split at h
    · cases h; rfl
    · cases h

theorem Fiber.step_term {f f1 : Fiber} {op : FiberOp} (hs : f.m_state = .TERM)
    (hop : ∀ cb, op ≠ .reset cb) (h : f.step op = .ok f1) : f1.m_state = .TERM := by
  cases op with
  | resume =>
    simp only [Fiber.step, Fiber.resume, hs] at h
    cases h
  | yield =>
    simp only [Fiber.step, Fiber.yield, hs, or_true, ite_true, ne_eq, not_true_eq_false,
      ite_false, Except.ok.injEq] at h
    rw [← h]; exact hs
  | reset cb => exact absurd rfl (hop cb)

theorem Fiber.run_term (ops : List FiberOp) :
    ∀ (f f1 : Fiber), f.m_state = .TERM → (∀ cb, FiberOp.reset cb ∉ ops) →
      f.run ops = .ok f1 → f1.m_state = .TERM := by
  induction ops with
  | nil =>
    intro f f1 hs _ h
    simp only [Fiber.run, Except.ok.injEq] at h
    rw [← h]; exact hs
  | cons op rest ih =>
    intro f f1 hs hno h
    simp only [Fiber.run] at h
    split at h
    · rename_i f2 hstep
      have hop : ∀ cb, op ≠ .reset cb := fun cb heq => hno cb (heq ▸ List.mem_cons_self _ _)
      exact ih f2 f1 (Fiber.step_term hs hop hstep)
        (fun cb hmem => hno cb (List.mem_cons_of_mem _ hmem)) h
    · cases h

theorem Fiber.run_no_stack (ops : List FiberOp) :
    ∀ (f f1 : Fiber), f.m_stack = none → f.run ops = .ok f1 →
      (∀ cb, FiberOp.reset cb ∉ ops) ∧ f1.m_stack = none := by
  induction ops with
  | nil =>
    intro f f1 hs h
    simp only [Fiber.run, Except.ok.injEq] at h
    exact ⟨(fun cb hmem => by cases hmem), (by rw [← h]; exact hs)⟩
  | cons op rest ih =>
    intro f f1 hs h
    simp only [Fiber.run] at h
    split at h
    · rename_i f2 hstep
      have hs2 : f2.m_stack = none := by rw [Fiber.step_stack hstep]; exact hs
      obtain ⟨h1, h2⟩ := ih f2 f1 hs2 h
      refine ⟨?_, h2⟩
      intro cb hmem
      rcases List.mem_cons.mp hmem with heq | hmem
      · rw [← heq] at hstep
        simp only [Fiber.step, Fiber.reset, hs, ne_eq, not_true_eq_false, false_and,
          ite_false] at hstep
        cases hstep
      · exact h1 cb hmem
    · cases h

/-- C16: the coroutine state machine. `resume()` passes its assertion exactly in state
READY and sets RUNNING. `yield()` passes exactly in RUNNING or TERM, turning RUNNING
into READY and leaving a TERM fiber as it is. `reset(cb)` passes exactly in state TERM
with a non-null stack and sets READY with the new callback. Every other call fails an
assertion. Hence no sequence of returning calls without a `reset` takes a TERM fiber
out of TERM, and no sequence of returning calls on a fiber without a stack, such as
the main fiber, contains a `reset`. -/
theorem Fiber_state_machine :
    (∀ f : Fiber, (f.m_state = .READY → f.resume = .ok { f with m_state := .RUNNING }) ∧
      (f.m_state ≠ .READY → f.resume = .error .assertion)) ∧
    (∀ f : Fiber, (f.m_state = .RUNNING → f.yield = .ok { f with m_state := .READY }) ∧
      (f.m_state = .TERM → f.yield = .ok f) ∧
      (f.m_state = .READY → f.yield = .error .assertion)) ∧
    (∀ (f : Fiber) (cb : Option Nat),
      (f.m_state = .TERM ∧ f.m_stack ≠ none →
        f.reset cb = .ok { f with m_state := .READY, m_cb := cb }) ∧
      (¬ (f.m_state = .TERM ∧ f.m_stack ≠ none) → f.reset cb = .error .assertion)) ∧
    (∀ (ops : List FiberOp) (f f1 : Fiber), f.m_state = .TERM → (∀ cb, FiberOp.reset cb ∉ ops) →
      f.run ops = .ok f1 → f1.m_state = .TERM ∧ f1.m_state ≠ .RUNNING) ∧
    (∀ (ops : List FiberOp) (f f1 : Fiber), f.m_stack = none → f.run ops = .ok f1 →
      ∀ cb, FiberOp.reset cb ∉ ops) ∧
    Fiber.main.m_state = .RUNNING ∧ Fiber.main.m_stack = none ∧
    (∀ cb, Fiber.main.reset cb = .error .assertion) := by
  refine ⟨?_, ?_, ?_, ?_, ?_, rfl, rfl, ?_⟩
  · intro f
    constructor
    · intro h; simp only [Fiber.resume, h, ite_true]
    · intro h; simp only [Fiber.resume, h, ite_false]
  · intro f
    refine ⟨?_, ?_, ?_⟩
    · intro h
      simp only [Fiber.yield, h, true_or, ite_true, ne_eq]
      rfl
    · intro h
      simp only [Fiber.yield, h, or_true, ite_true, ne_eq, not_true_eq_false, ite_false]
    · intro h
      simp only [Fiber.yield, h]
      rfl
  · intro f cb
    constructor
    · intro h
      simp only [Fiber.reset, h.1, h.2, ne_eq, not_false_eq_true, and_self, ite_true]
    · intro h
      have h1 : ¬ (f.m_stack ≠ none ∧ f.m_state = .TERM) := fun h2 => h ⟨h2.2, h2.1⟩
      simp only [Fiber.reset, h1, ite_false]
  · intro ops f f1 hs hno h
    have := Fiber.run_term ops f f1 hs hno h
    exact ⟨this, by rw [this]; decide⟩
  · intro ops f f1 hs h
    exact (Fiber.run_no_stack ops f f1 hs h).1
  · intro cb
    rfl

/-- C16, instance: a fiber created READY with a stack goes READY, RUNNING (resume),
READY (yield), RUNNING (resume); once its body has ended (TERM) a `yield` leaves it in
TERM, a `resume` fails, and `reset` makes it READY again. -/
theorem Fiber_state_machine_witness :
    (Fiber.create (some 1) 100 true).run [.resume, .yield, .resume] =
      .ok { m_state := .RUNNING, m_stack := some 100, m_cb := some 1 } ∧
    ({ m_state := .TERM, m_stack := some 100 } : Fiber).run [.yield] =
      .ok { m_state := .TERM, m_stack := some 100 } ∧
    ({ m_state := .TERM, m_stack := some 100 } : Fiber).resume = .error .assertion ∧
    ({ m_state := .TERM, m_stack := some 100 } : Fiber).reset (some 2) =
      .ok { m_state := .READY, m_stack := some 100, m_cb := some 2 } := by
  refine ⟨by decide, ?_, ?_, ?_⟩
  · have h := (Fiber_state_machine.2.1 { m_state := .TERM, m_stack := some 100 }).2.1 rfl
    simp only [Fiber.run, Fiber.step, h]
  · exact (Fiber_state_machine.1 { m_state := .TERM, m_stack := some 100 }).2 (by decide)
  · exact (Fiber_state_machine.2.2.1 { m_state := .TERM, m_stack := some 100 } (some 2)).1
      ⟨rfl, by decide⟩

/-! ## idle: the precondition of triggerEvent -/

/-- C18, the code at the failing input. `READ` and `WRITE` are registered on fd 3 and
`READ` is then deleted (state `ioWrite3`). When `idle` handles a report `EPOLLIN |
EPOLLOUT` for fd 3, the test `(events & real_events) == NONE` lets it pass because
`WRITE` is registered, and `if (real_events & READ)` calls `triggerEvent(READ)` although
`READ` is not registered: the assertion `events & event` fails. -/
theorem idleEvent_trigger_unregistered :
    delEvent ioBoth3 0 3 .READ = .ok (true, ioWrite3) ∧
    ioWrite3.m_fdContexts[3]? =
      some { fd := 3, events := 4, write := { scheduler := some 9, cb := some 8 } } ∧
    realEvents 4 (EPOLLIN ||| EPOLLOUT) = 5 ∧
    ({ fd := 3, events := 4, write := { scheduler := some 9, cb := some 8 } } :
      FdContext).triggerEvent [] .READ = .error .assertion ∧
    idleEvent ioWrite3 0 3 (EPOLLIN ||| EPOLLOUT) = .error .assertion := by
  decide

/-! ## Growth of the fd-context table -/

theorem setEventContext_fd (c : FdContext) (event : Event) (e : EventContext) :
    (c.setEventContext event e).fd = c.fd := by
  cases event <;> rfl

theorem fdIsIndex_set {t : List FdContext} {i : Nat} {a b : FdContext} (h : fdIsIndex t)
    (ha : t[i]? = some a) (hb : b.fd = a.fd) : fdIsIndex (t.set i b) := by
  intro j c hc
  rw [List.getElem?_set] at hc
  by_cases hij : i = j
  · subst hij
    have hlt : i < t.length := (List.getElem?_eq_some_iff.mp ha).1
    simp only [if_true, hlt, Option.some.injEq] at hc
    rw [← hc, hb]
    exact h i a ha
  · simp only [hij, if_false] at hc
    exact h j c hc

/-- The growth step of `addEvent` for `fd` at or beyond the size of the table. -/
theorem addEventTable_grow {t : List FdContext} {fd : Int} (hlen : t.length < 2 ^ 31)
    (hge : (t.length : Int) ≤ fd) (hg : growSize fd < 2 ^ 31) (hidx : fdIsIndex t) :
    (addEventTable t fd).length = growSize fd ∧
    (∀ (i : Nat) (c : FdContext), t[i]? = some c → (addEventTable t fd)[i]? = some c) ∧
    fdIsIndex (addEventTable t fd) := by
  have hle : t.length ≤ growSize fd := by
    unfold growSize; omega
  have htab : addEventTable t fd =
      t ++ (List.range' t.length (growSize fd - t.length)).map
        fun i => ({ fd := castInt i } : FdContext) := by
    unfold addEventTable
    rw [castInt_of_lt hlen, if_neg (by omega), contextResize_of_le hle]
  rw [htab]
  refine ⟨?_, ?_, ?_⟩
  · simp only [List.length_append, List.length_map, List.length_range']
    omega
  · intro i c hc
    have hlt : i < t.length := (List.getElem?_eq_some_iff.mp hc).1
    rw [List.getElem?_append_left hlt]
    exact hc
  · intro i c hc
    by_cases hlt : i < t.length
    · rw [List.getElem?_append_left hlt] at hc
      exact hidx i c hc
    · have hle2 : t.length ≤ i := by omega
      rw [List.getElem?_append_right hle2, List.getElem?_map] at hc
      by_cases hin : i - t.length < growSize fd - t.length
      · rw [List.getElem?_range' t.length 1 hin] at hc
        simp only [Option.map_some', Option.some.injEq] at hc
        rw [← hc]
        show castInt (t.length + 1 * (i - t.length)) = (i : Int)
        have : t.length + 1 * (i - t.length) = i := by omega
        rw [this, castInt_of_lt (by omega)]
      · have hnone : (List.range' t.length (growSize fd - t.length))[i - t.length]? = none := by
          apply List.getElem?_eq_none
          simp only [List.length_range']
          omega
        rw [hnone] at hc
        cases hc

/-- C17, as amended: for `fd` at or beyond the size of the table, `addEvent` resizes the
table to exactly `⌊fd · 1.5⌋` slots (`growSize fd`, the largest `n` with `2 n <= 3 fd`);
every previously allocated slot is kept; and when every slot `i` of the old table held
a context with `fd = i`, so does every slot of the new one. This holds of the table
after the growth step and of the table in any state that `addEvent` returns. -/
theorem addEvent_growth (io : IOManager) (env : ThreadEnv) (rt : Int) (fd : Int)
    (event : Event) (cb : Option Nat)
    (hlen : io.m_fdContexts.length < 2 ^ 31) (hge : (io.m_fdContexts.length : Int) ≤ fd)
    (hg : growSize fd < 2 ^ 31) (hidx : fdIsIndex io.m_fdContexts) :
    (2 * growSize fd ≤ 3 * fd.toNat ∧ 3 * fd.toNat < 2 * growSize fd + 2) ∧
    (addEventTable io.m_fdContexts fd).length = growSize fd ∧
    (∀ (i : Nat) (c : FdContext), io.m_fdContexts[i]? = some c →
      (addEventTable io.m_fdContexts fd)[i]? = some c) ∧
    fdIsIndex (addEventTable io.m_fdContexts fd) ∧
    (∀ r io1, addEvent io env rt fd event cb = .ok (r, io1) →
      io1.m_fdContexts.length = growSize fd ∧
      (∀ (i : Nat) (c : FdContext), io.m_fdContexts[i]? = some c →
        io1.m_fdContexts[i]? = some c) ∧
      fdIsIndex io1.m_fdContexts) := by
  obtain ⟨h1, h2, h3⟩ := addEventTable_grow hlen hge hg hidx
  refine ⟨by unfold growSize; omega, h1, h2, h3, ?_⟩
  intro r io1 h
  rcases addEvent_ok h with rfl | ⟨_, htab⟩
  · obtain ⟨fd_ctx, hfd, hc, _, _, _, _, htab⟩ := addEvent_ok_zero h
    rw [htab]
    refine ⟨by rw [List.length_set]; exact h1, ?_, ?_⟩
    · intro i c hic
      have hlt : i < io.m_fdContexts.length := (List.getElem?_eq_some_iff.mp hic).1
      rw [List.getElem?_set]
      have hne : fd.toNat ≠ i := by omega
      simp only [hne, if_false]
      exact h2 i c hic
    · exact fdIsIndex_set h3 hc (setEventContext_fd _ _ _)
  · rw [htab]
    exact ⟨h1, h2, h3⟩

/-- C17, instance of the amended statement: `addEvent(40, WRITE)` on a fresh manager
(32 slots) returns 0 and leaves a table of 60 slots that keeps the 32 old ones and has
`fd = i` in every slot. -/
theorem addEvent_growth_witness :
    ∃ io1, addEvent IOManager.init env0 0 40 .WRITE none = .ok (0, io1) ∧
      io1.m_fdContexts.length = 60 ∧
      (∀ (i : Nat) (c : FdContext), IOManager.init.m_fdContexts[i]? = some c →
        io1.m_fdContexts[i]? = some c) ∧
      fdIsIndex io1.m_fdContexts := by
  have hidx : fdIsIndex IOManager.init.m_fdContexts := by
    intro i c hc
    have hlt : i < 32 := (List.getElem?_eq_some_iff.mp hc).1
    have hall : ∀ j : Fin 32, IOManager.init.m_fdContexts[j.val]? = some { fd := (j.val : Int) } := by
      decide
    have := hall ⟨i, hlt⟩
    simp only at this
    rw [this] at hc
    rw [← Option.some.inj hc]
  have hres : (addEvent IOManager.init env0 0 40 .WRITE none).toOption.map (fun r => r.1) =
      some 0 := by decide
  cases hadd : addEvent IOManager.init env0 0 40 .WRITE none with
  | error f => rw [hadd] at hres; cases hres
  | ok r =>
    obtain ⟨r0, io1⟩ := r
    rw [hadd] at hres
    have hr0 : r0 = 0 := by simpa [Except.toOption] using hres
    subst hr0
    obtain ⟨_, _, _, _, h5⟩ := addEvent_growth IOManager.init env0 0 40 .WRITE none
      (by decide) (by decide) (by decide) hidx
    obtain ⟨a, b, c⟩ := h5 0 io1 hadd
    exact ⟨io1, rfl, a, b, c⟩

/-- C17, counterexample to the stated size: `addEvent(33, READ, cb 7)` on a fresh manager
returns 0 and leaves a table of 49 slots, while `⌈33 · 1.5⌉` is 50. -/
theorem addEvent_growth_counterexample :
    (addEvent IOManager.init env0 0 33 .READ (some 7)).toOption.map
      (fun r => (r.1, r.2.m_fdContexts.length)) = some (0, 49) ∧
    (IOManager.init.m_fdContexts.length : Int) ≤ 33 ∧ ceilGrow 33 = 50 := by
  decide

/-! ## What holds of addTimer, cancel and refresh away from ties -/

theorem mem_setInsert_of_mem {heap : List Timer} {s : List Nat} {x a : Nat} (h : a ∈ s) :
    a ∈ setInsert heap s x := by
  induction s with
  | nil => cases h
  | cons y ys ih =>
    unfold setInsert
    split
    · exact List.mem_cons_of_mem _ h
    · split
      · rcases List.mem_cons.mp h with h1 | h1
        · rw [h1]; exact List.mem_cons_self _ _
        · exact List.mem_cons_of_mem _ (ih h1)
      · exact h

/-- When the timer is a member of the well-ordered set, `cancel` and `refresh` leave
every other timer in the set, with its fields untouched. -/
theorem Timer_frame_of_mem (tm : TimerManager) (t : Nat) (tmr : Timer)
    (hget : tm.heap[t]? = some tmr) (hcb : tmr.m_cb ≠ none) (hmem : t ∈ tm.m_timers)
    (hok : SetOk tm) :
    (∃ tm1, Timer.cancel tm t = some (true, tm1) ∧
      ∀ u, u ≠ t → (u ∈ tm.m_timers → u ∈ tm1.m_timers) ∧ tm1.heap[u]? = tm.heap[u]?) ∧
    (∀ now, ∃ tm1, Timer.refresh tm now t = some (true, tm1) ∧
      ∀ u, u ≠ t → (u ∈ tm.m_timers → u ∈ tm1.m_timers) ∧ tm1.heap[u]? = tm.heap[u]?) := by
  obtain ⟨hf, he⟩ := setFind_of_mem tm.heap tm.m_timers t hok hmem
  constructor
  · refine ⟨{ tm with heap := tm.heap.set t { tmr with m_cb := none },
                      m_timers := tm.m_timers.erase t }, ?_, ?_⟩
    · simp only [Timer.cancel, hget, hcb, ite_false, setFind_set_cb tm.heap t tmr none hget, hf, he]
    · intro u hu
      refine ⟨fun h => (List.mem_erase_of_ne hu).mpr h, ?_⟩
      show (tm.heap.set t { tmr with m_cb := none })[u]? = tm.heap[u]?
      rw [List.getElem?_set]
      simp only [Ne.symm hu, if_false]
  · intro now
    refine ⟨{ tm with
        heap := tm.heap.set t { tmr with m_next := now + msTicks tmr.m_ms },
        m_timers := setInsert
          (tm.heap.set t { tmr with m_next := now + msTicks tmr.m_ms })
          (tm.m_timers.erase t) t }, ?_, ?_⟩
    · simp only [Timer.refresh, hget, hcb, ite_false, hf, he]
    · intro u hu
      refine ⟨fun h => mem_setInsert_of_mem ((List.mem_erase_of_ne hu).mpr h), ?_⟩
      show (tm.heap.set t { tmr with m_next := now + msTicks tmr.m_ms })[u]? =
        tm.heap[u]?
      rw [List.getElem?_set]
      simp only [Ne.symm hu, if_false]

/-- When no element of the set has the deadline of the new timer, `addTimer` invokes
the hook exactly when the new timer is the head of the set afterwards and no wakeup
was pending. -/
theorem addTimer_hook_iff (tm : TimerManager) (timer : Nat)
    (hne : ∀ y ∈ tm.m_timers, deadline tm.heap y ≠ deadline tm.heap timer) :
    (tm.addTimer timer).2 = true ↔
      ((tm.addTimer timer).1.m_timers.head? = some timer ∧ tm.m_tickled = false) := by
  have key : (setInsertPos tm.heap tm.m_timers timer = 0) ↔
      (setInsert tm.heap tm.m_timers timer).head? = some timer := by
    cases hs : tm.m_timers with
    | nil => simp [setInsertPos, setInsert]
    | cons y ys =>
      have hy := hne y (by rw [hs]; exact List.mem_cons_self _ _)
      by_cases h1 : Comparator tm.heap timer y = true
      · simp [setInsertPos, setInsert, h1]
      · by_cases h2 : Comparator tm.heap y timer = true
        · have hyt : y ≠ timer := by
            intro heq; rw [heq] at hy; exact hy rfl
          simp [setInsertPos, setInsert, h1, h2, hyt]
        · exfalso
          unfold Comparator at h1 h2
          simp only [decide_eq_true_eq, not_lt] at h1 h2
          exact hy (le_antisymm h1 h2)
  simp only [TimerManager.addTimer, Bool.and_eq_true, decide_eq_true_eq, Bool.not_eq_true',
    key]

/-! ## Bounds of the fd-context lookup -/

/-- For a file descriptor `fd >= 0` and a table of at least 32 slots whose size fits an
`int`, the slot that `addEvent` reads after its growth step, and the slot that
`delEvent`, `cancelEvent` and `cancelAll` read after their size check, is inside the
table. -/
theorem slot_in_bounds (t : List FdContext) (fd : Int) (hfd : 0 ≤ fd) (h32 : 32 ≤ t.length)
    (hlen : t.length < 2 ^ 31) :
    (∃ c, slot (addEventTable t fd) fd = .ok c) ∧
    (castInt t.length > fd → ∃ c, slot t fd = .ok c) := by
  constructor
  · have hlt : fd.toNat < (addEventTable t fd).length := by
      unfold addEventTable
      split
      · rename_i h
        rw [castInt_of_lt hlen] at h
        omega
      · rename_i h
        rw [castInt_of_lt hlen] at h
        have hle : t.length ≤ growSize fd := by
          unfold growSize; omega
        rw [contextResize_of_le hle]
        simp only [List.length_append, List.length_map, List.length_range']
        unfold growSize at hle ⊢
        omega
    exact ⟨_, slot_of_getElem? hfd (List.getElem?_eq_getElem hlt)⟩
  · intro h
    obtain ⟨c, hc⟩ := getElem?_of_castInt_gt hfd h
    exact ⟨c, slot_of_getElem? hfd hc⟩

/-- C21, the code at the failing input. On the table of a fresh manager (32 slots) the
descriptor `fd = -1` passes the test `(int)m_fdContexts.size() > fd` of all four
operations, no growth step is taken, and `m_fdContexts[fd]` is read at index -1,
outside the table. -/
theorem lookup_negative_fd :
    IOManager.init.m_fdContexts.length = 32 ∧
    castInt IOManager.init.m_fdContexts.length > -1 ∧
    addEventTable IOManager.init.m_fdContexts (-1) = IOManager.init.m_fdContexts ∧
    slot IOManager.init.m_fdContexts (-1) = .error .outOfRange ∧
    addEvent IOManager.init env0 0 (-1) .READ (some 7) = .error .outOfRange ∧
    delEvent IOManager.init 0 (-1) .READ = .error .outOfRange ∧
    cancelEvent IOManager.init 0 (-1) .READ = .error .outOfRange ∧
    cancelAll IOManager.init 0 (-1) = .error .outOfRange := by
  decide

/-! ## The period of a timer -/

/-- A period below `2^63` ms is counted as it is. -/
theorem msTicks_of_lt {ms : Nat} (h : ms < 2 ^ 63) : msTicks ms = (ms : Int) * ticksPerMs := by
  have h1 : ms % 2 ^ 64 = ms := Nat.mod_eq_of_lt (by omega)
  simp only [msTicks, toInt64, h1, h, ite_true]

/-- A period from `2^63` ms on is counted as a negative duration: `addTimer(~0ull, cb)` at
the clock reading 0 creates a timer whose deadline is 1 ms before that reading. -/
theorem addTimerNew_wraps :
    msTicks (2 ^ 64 - 1) = -ticksPerMs ∧
    (({} : TimerManager).addTimerNew 0 (2 ^ 64 - 1) (some 1) false).2.1.heap =
      [{ m_ms := 2 ^ 64 - 1, m_next := -1000000, m_cb := some 1 }] := by
  decide

end sylar
